import Mathlib

/-!
Verification of the rule-based extraction pipeline of the `hakaton` invoice/receipt
extraction repository.

The Python sources under `app/` are shallowly embedded here:

* `processor.process_with_regex`               → `process_with_regex`
* `processor.extract_invoice_data`             → `extract_invoice_data` (text-level
  orchestration; PDF/OCR text production is an external collaborator and is
  modelled as the text argument itself)
* `hybrid_bert_model.HybridBERTExtractor.extract_with_regex` → `extract_with_regex`
* `auto_extract_training_data.extract_data_from_text`        → `extract_data_from_text`
* `ml_model.InvoiceDataExtractor` (patterns, weights, predict, train, the weight
  update `_update_weights`) → `mlPredict`, `train`, `update_weights`, …

The Python `re` module is embedded by a small backtracking engine (`RE`, `mrun`,
`reSearch`, `reFinditer`) whose alternation/greediness order matches CPython's
leftmost, depth-first backtracking semantics.  Every concrete pattern of the
source is transcribed node by node into an `RE` value.  Scope notes on fidelity:

* `\d` is embedded as the ASCII digits and `\s` as the ASCII whitespace set;
  the non-ASCII code points Python additionally accepts do not occur in the
  character data relevant here.
* `\w` (used only through `\b`) covers ASCII alphanumerics, `_`, and the
  Cyrillic block U+0400–U+04FF, which covers all texts considered.
* Python `float` values are embedded as exact fractions (`PyF`, interpreted in
  `ℚ` by `PyF.toQ`).  All numerals produced by the pipeline are short decimal
  literals, for which parsing, comparison, maximum selection, the `> 50` /
  `>= 1.0` thresholds and `str()` round-tripping agree between binary doubles
  and exact rationals.
* Logging, metric history and persistence (`save`/`load`) do not influence the
  extracted records or the trained weights and are not embedded.
-/

set_option maxRecDepth 20000

namespace Hakaton

/-! ## Regular-expression engine (Python `re` semantics) -/

/-- Regex abstract syntax.  `rep lo hi a` is the greedy repetition `a{lo,hi}`
(`hi = none` for an unbounded repetition).  `grp n a` is the capturing group
number `n`.  `bnd` is `\b`; `bos` is `^` and `eos` is `$` (no `MULTILINE`,
matching CPython's default semantics). -/
inductive RE where
  | eps
  | cls (p : Char → Bool)
  | seq (a b : RE)
  | alt (a b : RE)
  | rep (lo : Nat) (hi : Option Nat) (a : RE)
  | grp (n : Nat) (a : RE)
  | bnd
  | bos
  | eos

/-- Capture table: group number ↦ (start, stop) of the last text span it matched. -/
abbrev Caps := List (Nat × Nat × Nat)

def setCap : Caps → Nat → Nat → Nat → Caps
  | [], n, a, b => [(n, a, b)]
  | (m, ab) :: r, n, a, b => if m = n then (n, a, b) :: r else (m, ab) :: setCap r n a b

def getCap : Caps → Nat → Option (Nat × Nat)
  | [], _ => none
  | (m, a, b) :: r, n => if m = n then some (a, b) else getCap r n

/-- Python `\s` (ASCII part). -/
def pySpace (c : Char) : Bool :=
  c == ' ' || c == '\t' || c == '\n' || c == '\r' || c == '\x0b' || c == '\x0c'

/-- Python `\w` over the alphabets that occur in the pipeline's data. -/
def wordChar (c : Char) : Bool :=
  c.isAlphanum || c == '_' || (0x400 ≤ c.toNat && c.toNat ≤ 0x4FF)

def wordCharAt (s : List Char) (i : Nat) : Bool :=
  match s[i]? with
  | some c => wordChar c
  | none => false

/-- Python `\b`: exactly one neighbour of the position is a word character. -/
def wordBoundary (s : List Char) (i : Nat) : Bool :=
  match i with
  | 0 => wordCharAt s 0
  | j + 1 => wordCharAt s j != wordCharAt s (j + 1)

/-- All ways the greedy repetition can run, longest-first, as CPython backtracks.
Iterations of an optional (`lo = 0`) phase must consume input, matching
CPython's refusal to loop on an empty repetition.  `fuel` only guarantees
termination and is chosen large enough never to be exhausted. -/
def repRun (body : Nat → Caps → List (Nat × Caps)) :
    Nat → Nat → Option Nat → Nat → Caps → List (Nat × Caps)
  | 0, _, _, _, _ => []
  | fuel + 1, lo + 1, hi, i, cp =>
      (body i cp).flatMap fun jc =>
        repRun body fuel lo (hi.map (· - 1)) jc.1 jc.2
  | fuel + 1, 0, hi, i, cp =>
      if hi = some 0 then [(i, cp)]
      else
        ((body i cp).flatMap fun jc =>
          if jc.1 ≤ i then [] else repRun body fuel 0 (hi.map (· - 1)) jc.1 jc.2)
        ++ [(i, cp)]

/-- All matches of `re` at position `i` of `s`, as `(end, captures)` pairs in
CPython's backtracking priority order; the head is the match `re.search`
commits to when it tries this start position. -/
def mrun (s : List Char) : RE → Nat → Caps → List (Nat × Caps)
  | .eps, i, cp => [(i, cp)]
  | .cls p, i, cp =>
      match s[i]? with
      | some c => if p c then [(i + 1, cp)] else []
      | none => []
  | .seq a b, i, cp => (mrun s a i cp).flatMap fun jc => mrun s b jc.1 jc.2
  | .alt a b, i, cp => mrun s a i cp ++ mrun s b i cp
  | .rep lo hi a, i, cp => repRun (mrun s a) (lo + (s.length - i) + 1) lo hi i cp
  | .grp n a, i, cp => (mrun s a i cp).map fun jc => (jc.1, setCap jc.2 n i jc.1)
  | .bnd, i, cp => if wordBoundary s i then [(i, cp)] else []
  | .bos, i, cp => if i = 0 then [(i, cp)] else []
  | .eos, i, cp =>
      if i = s.length ∨ (i + 1 = s.length ∧ s[i]? = some '\n') then [(i, cp)] else []

/-- Leftmost search: try start positions `i, i+1, …` in order. -/
def searchAux (re : RE) (s : List Char) : Nat → Nat → Option (Nat × Nat × Caps)
  | 0, _ => none
  | fuel + 1, i =>
      match (mrun s re i []).head? with
      | some jc => some (i, jc.1, jc.2)
      | none => if i < s.length then searchAux re s fuel (i + 1) else none

/-- `re.search(pattern, s)` starting the scan at position `i`. -/
def searchFrom (re : RE) (s : List Char) (i : Nat) : Option (Nat × Nat × Caps) :=
  searchAux re s (s.length + 1 - i) i

/-- `re.search(pattern, s)`: leftmost match as `(start, end, captures)`. -/
def reSearch (re : RE) (s : List Char) : Option (Nat × Nat × Caps) :=
  searchFrom re s 0

def finditerAux (re : RE) (s : List Char) : Nat → Nat → List (Nat × Nat × Caps)
  | 0, _ => []
  | fuel + 1, i =>
      match searchFrom re s i with
      | some m => m :: finditerAux re s fuel (if m.1 < m.2.1 then m.2.1 else m.2.1 + 1)
      | none => []

/-- `re.finditer(pattern, s)`: non-overlapping matches, left to right. -/
def reFinditer (re : RE) (s : List Char) : List (Nat × Nat × Caps) :=
  finditerAux re s (s.length + 2) 0

/-- The span `[a, b)` of `s`. -/
def slice (s : List Char) (a b : Nat) : List Char :=
  (s.drop a).take (b - a)

/-- `match.group(n)`: `n = 0` is the whole match. -/
def matchGroup (s : List Char) (m : Nat × Nat × Caps) (n : Nat) : Option (List Char) :=
  if n = 0 then some (slice s m.1 m.2.1)
  else (getCap m.2.2 n).map fun ab => slice s ab.1 ab.2

/-- `re.search(...).group(1)`, `None` if there is no match. -/
def search1 (re : RE) (s : List Char) : Option (List Char) :=
  (reSearch re s).bind fun m => matchGroup s m 1

/-- `re.search(...).group(0)`, `None` if there is no match. -/
def search0 (re : RE) (s : List Char) : Option (List Char) :=
  (reSearch re s).bind fun m => matchGroup s m 0

/-- `re.findall` for a pattern with exactly one capturing group. -/
def findall1 (re : RE) (s : List Char) : List (List Char) :=
  (reFinditer re s).filterMap fun m => matchGroup s m 1

/-! ## Pattern combinators -/

/-- Case folding used for `re.IGNORECASE`: ASCII letters plus the Cyrillic
letters that occur in the patterns. -/
def lowerRu (c : Char) : Char :=
  if 'A' ≤ c ∧ c ≤ 'Z' then Char.ofNat (c.toNat + 32)
  else if 'А' ≤ c ∧ c ≤ 'Я' then Char.ofNat (c.toNat + 0x20)
  else if c = 'Ё' then 'ё'
  else c

def lit (c : Char) : RE := .cls (· == c)

def litIC (c : Char) : RE := .cls (fun x => lowerRu x == lowerRu c)

def rcat (l : List RE) : RE := l.foldr .seq .eps

def rstr (t : String) : RE := rcat (t.data.map lit)

def rstrIC (t : String) : RE := rcat (t.data.map litIC)

def ror : List RE → RE
  | [] => .cls fun _ => false
  | [r] => r
  | r :: rest => .alt r (ror rest)

def ropt (r : RE) : RE := .rep 0 (some 1) r
def rplus (r : RE) : RE := .rep 1 none r
def rstar (r : RE) : RE := .rep 0 none r
def rexact (n : Nat) (r : RE) : RE := .rep n (some n) r

def rdigit : RE := .cls Char.isDigit
def rws : RE := .cls pySpace

/-- `[А-ЯЁ]` (uppercase Cyrillic, as a case-sensitive class). -/
def cyrU (c : Char) : Bool := ('А' ≤ c && c ≤ 'Я') || c == 'Ё'

/-- `[а-яё]` (lowercase Cyrillic, as a case-sensitive class). -/
def cyrL (c : Char) : Bool := ('а' ≤ c && c ≤ 'я') || c == 'ё'

/-! ## Python string / number helpers -/

/-- `str.strip()` (ASCII whitespace, which is all that occurs here). -/
def pyStrip (s : List Char) : List Char :=
  ((s.dropWhile pySpace).reverse.dropWhile pySpace).reverse

/-- `str.replace(old, '')` for a single character. -/
def removeChar (c : Char) (s : List Char) : List Char :=
  s.filter (· ≠ c)

/-- `str.replace(',', '.')`. -/
def commaToDot (s : List Char) : List Char :=
  s.map fun c => if c = ',' then '.' else c

/-- `str.replace(' ', '')`. -/
def removeSpaces (s : List Char) : List Char :=
  removeChar ' ' s

def digitsVal (l : List Char) : Nat :=
  l.foldl (fun a c => a * 10 + (c.toNat - 48)) 0

/-- Exact fraction `num / (den1 + 1)`: the embedding of a Python float.  The
denominator is stored as a predecessor so it is positive by construction, and
no normalisation is performed, keeping every operation kernel-computable.
For the short decimal values this pipeline manipulates, comparison, maximum
selection, the thresholds and `str()` agree with binary doubles. -/
structure PyF where
  num : Int
  den1 : Nat
deriving DecidableEq, Repr

/-- The rational value of an embedded float. -/
def PyF.toQ (x : PyF) : ℚ := (x.num : ℚ) / ((x.den1 : ℚ) + 1)

/-- Python `<` on floats. -/
def PyF.lt (x y : PyF) : Bool :=
  decide (x.num * ((y.den1 : Int) + 1) < y.num * ((x.den1 : Int) + 1))

/-- Python `<=` on floats. -/
def PyF.le (x y : PyF) : Bool :=
  decide (x.num * ((y.den1 : Int) + 1) ≤ y.num * ((x.den1 : Int) + 1))

/-- Python `==` on floats. -/
def PyF.beq (x y : PyF) : Bool :=
  x.num * ((y.den1 : Int) + 1) == y.num * ((x.den1 : Int) + 1)

/-- Python float addition. -/
def PyF.add (x y : PyF) : PyF :=
  ⟨x.num * ((y.den1 : Int) + 1) + y.num * ((x.den1 : Int) + 1),
    (x.den1 + 1) * (y.den1 + 1) - 1⟩

/-- Python float subtraction. -/
def PyF.sub (x y : PyF) : PyF :=
  ⟨x.num * ((y.den1 : Int) + 1) - y.num * ((x.den1 : Int) + 1),
    (x.den1 + 1) * (y.den1 + 1) - 1⟩

/-- Python `max(x, y)` (keeps the first argument unless the second is strictly
greater). -/
def PyF.max (x y : PyF) : PyF := if PyF.lt x y then y else x

/-- The float of an integer literal. -/
def PyF.ofNat (n : Nat) : PyF := ⟨n, 0⟩

/-- Python `float(s)` on the plain decimal strings this pipeline produces
(digits with at most one decimal point); `none` models the `ValueError`. -/
def pyFloat? (s : List Char) : Option PyF :=
  let ip := s.takeWhile (· ≠ '.')
  let rest := s.drop ip.length
  let fp := rest.drop 1
  if ip.all Char.isDigit ∧ fp.all Char.isDigit ∧ (ip ≠ [] ∨ fp ≠ []) ∧
      (rest = [] ∨ rest.take 1 = ['.']) then
    some ⟨(digitsVal ip * 10 ^ fp.length + digitsVal fp : Nat), 10 ^ fp.length - 1⟩
  else none

/-- Python `str()` of the nonnegative finite-decimal floats this pipeline
produces (shortest decimal form, always keeping one fractional digit). -/
def qRepr (x : PyF) : String :=
  let n := x.num.toNat
  let d := x.den1 + 1
  match (List.range 31).find? (fun k => n * 10 ^ k % d = 0) with
  | some k =>
      let m := n * 10 ^ k / d
      let ip := m / 10 ^ k
      let fpDigits := Nat.toDigits 10 (m % 10 ^ k)
      let fp := List.replicate (k - fpDigits.length) '0' ++ fpDigits
      if k = 0 then toString ip ++ ".0"
      else toString ip ++ "." ++ String.mk fp
  | none => toString x.num ++ "/" ++ toString d

/-- Python `needle in haystack` (substring containment). -/
def pyIn (needle hay : List Char) : Bool :=
  (List.range (hay.length + 1)).any fun i => (hay.drop i).take needle.length == needle

/-! ## Records (Python dicts with string keys) -/

inductive Value where
  | str (s : String)
  | num (q : PyF)
deriving DecidableEq, Repr

/-- A Python dict in insertion order. -/
abbrev Record := List (String × Value)

def setKey : Record → String → Value → Record
  | [], k, v => [(k, v)]
  | (k0, v0) :: r, k, v => if k0 = k then (k, v) :: r else (k0, v0) :: setKey r k v

def getKey : Record → String → Option Value
  | [], _ => none
  | (k0, v0) :: r, k => if k0 = k then some v0 else getKey r k

/-- `if m: d[k] = f(m)` — conditional assignment. -/
def optSetKey (r : Record) (k : String) (o : Option Value) : Record :=
  match o with
  | some v => setKey r k v
  | none => r

/-- `del d[k]` (no error if absent, as in the guarded `del` of the source). -/
def delKey (k : String) (r : Record) : Record :=
  r.filter fun kv => kv.1 ≠ k

def UNRECOGNIZED : String := "UNRECOGNIZED"

/-- `for pattern in patterns: m = re.search(pattern, text); if m: … break` with
the loop body keeping `m.group(1)`. -/
def firstSome1 : List RE → List Char → Option (List Char)
  | [], _ => none
  | re :: rest, s =>
      match search1 re s with
      | some v => some v
      | none => firstSome1 rest s

/-! ## Shared character classes -/

/-- `[:\s]`. -/
def clsColonSpace : RE := .cls fun c => c == ':' || pySpace c

/-- `[:\s=]` / `[\s=:]`. -/
def clsColonSpaceEq : RE := .cls fun c => c == ':' || pySpace c || c == '='

/-- `[.,]`. -/
def clsDotComma : RE := .cls fun c => c == '.' || c == ','

/-- `[\d\s]`. -/
def clsDigitSpace : RE := .cls fun c => c.isDigit || pySpace c

/-- `["«]`. -/
def quoteOpen (c : Char) : Bool := c == '"' || c == '«'

/-- `["»]`. -/
def quoteClose (c : Char) : Bool := c == '"' || c == '»'

/-- `[^"»\n]`. -/
def notQuoteCloseNl (c : Char) : Bool := !(c == '"' || c == '»' || c == '\n')

/-- `[\s-]?` (the optional separator of the phone patterns). -/
def sepSp : RE := ropt (.cls fun c => pySpace c || c == '-')

/-- `[a-zA-Z0-9._%+-]` (email local part). -/
def emailLocalChar (c : Char) : Bool :=
  c.isAlphanum || c == '.' || c == '_' || c == '%' || c == '+' || c == '-'

/-- `[a-zA-Z0-9.-]` (email domain part). -/
def emailDomChar (c : Char) : Bool := c.isAlphanum || c == '.' || c == '-'

/-! ## `processor.process_with_regex` patterns -/

/-- `ИНН[:\s]*(\d{10,12})`, `re.IGNORECASE`. -/
def pInn : RE :=
  rcat [rstrIC "ИНН", rstar clsColonSpace, .grp 1 (.rep 10 (some 12) rdigit)]

/-- `(ООО\s+["«]?[^"»\n]+["»]?)`. -/
def pVendor1 : RE :=
  .grp 1 (rcat [rstr "ООО", rplus rws, ropt (.cls quoteOpen),
    rplus (.cls notQuoteCloseNl), ropt (.cls quoteClose)])

/-- `(АО\s+["«]?[^"»\n]+["»]?)`. -/
def pVendor2 : RE :=
  .grp 1 (rcat [rstr "АО", rplus rws, ropt (.cls quoteOpen),
    rplus (.cls notQuoteCloseNl), ropt (.cls quoteClose)])

/-- `(ИП\s+[А-ЯЁ][а-яё]+\s+[А-ЯЁ][а-яё]+\s+[А-ЯЁ][а-яё]+)`. -/
def pVendor3 : RE :=
  .grp 1 (rcat [rstr "ИП", rplus rws,
    .cls cyrU, rplus (.cls cyrL), rplus rws,
    .cls cyrU, rplus (.cls cyrL), rplus rws,
    .cls cyrU, rplus (.cls cyrL)])

/-- `([А-ЯЁ][А-ЯЁ\s]+(?:ООО|АО|ИП))`. -/
def pVendor4 : RE :=
  .grp 1 (rcat [.cls cyrU, rplus (.cls fun c => cyrU c || pySpace c),
    ror [rstr "ООО", rstr "АО", rstr "ИП"]])

/-- `Счет[:\s-]*(?:фактура)?[:\s#№]*(\d+)`, `re.IGNORECASE`. -/
def pInvoice1 : RE :=
  rcat [rstrIC "Счет", rstar (.cls fun c => c == ':' || pySpace c || c == '-'),
    ropt (rstrIC "фактура"),
    rstar (.cls fun c => c == ':' || pySpace c || c == '#' || c == '№'),
    .grp 1 (rplus rdigit)]

/-- `Чек[:\s#№]*(\d+)`, `re.IGNORECASE`. -/
def pInvoice2 : RE :=
  rcat [rstrIC "Чек",
    rstar (.cls fun c => c == ':' || pySpace c || c == '#' || c == '№'),
    .grp 1 (rplus rdigit)]

/-- `Документ[:\s#№]*(\d+)`, `re.IGNORECASE`. -/
def pInvoice3 : RE :=
  rcat [rstrIC "Документ",
    rstar (.cls fun c => c == ':' || pySpace c || c == '#' || c == '№'),
    .grp 1 (rplus rdigit)]

/-- `№[:\s]*(\d+)`, `re.IGNORECASE`. -/
def pInvoice4 : RE :=
  rcat [rstrIC "№", rstar clsColonSpace, .grp 1 (rplus rdigit)]

/-- `(\d{2}\.\d{2}\.\d{4})`. -/
def pDate1 : RE :=
  .grp 1 (rcat [rexact 2 rdigit, lit '.', rexact 2 rdigit, lit '.', rexact 4 rdigit])

/-- `(\d{2}/\d{2}/\d{4})`. -/
def pDate2 : RE :=
  .grp 1 (rcat [rexact 2 rdigit, lit '/', rexact 2 rdigit, lit '/', rexact 4 rdigit])

/-- `(\d{2}\.\d{2}\.\d{2})`. -/
def pDate3 : RE :=
  .grp 1 (rcat [rexact 2 rdigit, lit '.', rexact 2 rdigit, lit '.', rexact 2 rdigit])

def monthsFull : List String :=
  ["января", "февраля", "марта", "апреля", "мая", "июня", "июля",
   "августа", "сентября", "октября", "ноября", "декабря"]

def monthsAbbr : List String :=
  ["янв", "фев", "мар", "апр", "мая", "июн", "июл", "авг", "сен", "окт", "ноя", "дек"]

/-- `(\d{1,2}\s+(?:января|…|декабря)\s+\d{4})`, `re.IGNORECASE`. -/
def pDate4 : RE :=
  .grp 1 (rcat [.rep 1 (some 2) rdigit, rplus rws, ror (monthsFull.map rstrIC),
    rplus rws, rexact 4 rdigit])

/-- `(\d{1,2}\s+(?:янв|…|дек)\s+\d{4})`, `re.IGNORECASE`. -/
def pDate5 : RE :=
  .grp 1 (rcat [.rep 1 (some 2) rdigit, rplus rws, ror (monthsAbbr.map rstrIC),
    rplus rws, rexact 4 rdigit])

/-- `([\d\s]+[.,]\d{2})` (the amount group of the `processor`/`ml_model` totals). -/
def totalNumGrp : RE :=
  .grp 1 (rcat [rplus clsDigitSpace, clsDotComma, rexact 2 rdigit])

/-- `(?:Итого|ИТОГО|Всего|ВСЕГО|К оплате|Сумма)[:\s=]*([\d\s]+[.,]\d{2})`, `re.IGNORECASE`. -/
def pTotal1 : RE :=
  rcat [ror [rstrIC "Итого", rstrIC "ИТОГО", rstrIC "Всего", rstrIC "ВСЕГО",
    rstrIC "К оплате", rstrIC "Сумма"], rstar clsColonSpaceEq, totalNumGrp]

/-- `(?:итог|total)[:\s=]*([\d\s]+[.,]\d{2})`, `re.IGNORECASE`. -/
def pTotal2 : RE :=
  rcat [ror [rstrIC "итог", rstrIC "total"], rstar clsColonSpaceEq, totalNumGrp]

/-- `[\+]?[7-8][\s-]?\(?(\d{3})\)?[\s-]?(\d{3})[\s-]?(\d{2})[\s-]?(\d{2})`
(shared verbatim by `processor.process_with_regex` and
`ml_model.InvoiceDataExtractor.predict`). -/
def pPhone : RE :=
  rcat [ropt (lit '+'), .cls (fun c => c == '7' || c == '8'), sepSp, ropt (lit '('),
    .grp 1 (rexact 3 rdigit), ropt (lit ')'), sepSp,
    .grp 2 (rexact 3 rdigit), sepSp,
    .grp 3 (rexact 2 rdigit), sepSp,
    .grp 4 (rexact 2 rdigit)]

/-- `([a-zA-Z0-9._%+-]+@[a-zA-Z0-9.-]+\.[a-zA-Z]{2,})` (shared verbatim by
`processor.process_with_regex` and `ml_model.InvoiceDataExtractor.predict`). -/
def pEmail : RE :=
  .grp 1 (rcat [rplus (.cls emailLocalChar), lit '@', rplus (.cls emailDomChar),
    lit '.', .rep 2 none (.cls Char.isAlpha)])

/-- `(?:Адрес|ADDRESS|адрес)[:\s]*([^\n]{10,100})`, `re.IGNORECASE`. -/
def pAddress : RE :=
  rcat [ror [rstrIC "Адрес", rstrIC "ADDRESS", rstrIC "адрес"], rstar clsColonSpace,
    .grp 1 (.rep 10 (some 100) (.cls (· != '\n')))]

/-- The phone section of `process_with_regex` / `InvoiceDataExtractor.predict`:
`f"+7{g1}{g2}{g3}{g4}"` from the four capture groups. -/
def phoneSearch (s : List Char) : Option (List Char) :=
  match reSearch pPhone s with
  | some m =>
      match matchGroup s m 1, matchGroup s m 2, matchGroup s m 3, matchGroup s m 4 with
      | some a, some b, some c, some d => some ("+7".data ++ a ++ b ++ c ++ d)
      | _, _, _, _ => none
  | none => none

/-- `processor.process_with_regex`. -/
def process_with_regex (s : List Char) : Record :=
  let data1 := setKey [] "inn"
    (.str (match search1 pInn s with
           | some v => String.mk v
           | none => UNRECOGNIZED))
  let data2 := setKey data1 "vendor"
    (.str (match firstSome1 [pVendor1, pVendor2, pVendor3, pVendor4] s with
           | some v => String.mk (pyStrip v)
           | none => UNRECOGNIZED))
  let data3 := setKey data2 "invoice_number"
    (.str (match firstSome1 [pInvoice1, pInvoice2, pInvoice3, pInvoice4] s with
           | some v => String.mk v
           | none => UNRECOGNIZED))
  let data4 := setKey data3 "date"
    (.str (match firstSome1 [pDate1, pDate2, pDate3, pDate4, pDate5] s with
           | some v => String.mk v
           | none => UNRECOGNIZED))
  let data5 := setKey data4 "total"
    (match firstSome1 [pTotal1, pTotal2] s with
     | some g =>
         let amount := commaToDot (removeSpaces g)
         match pyFloat? amount with
         | some q => .num q
         | none => .str (String.mk amount)
     | none => .str UNRECOGNIZED)
  let data6 := optSetKey data5 "phone" ((phoneSearch s).map fun v => .str (String.mk v))
  let data7 := optSetKey data6 "email" ((search1 pEmail s).map fun v => .str (String.mk v))
  optSetKey data7 "address" ((search1 pAddress s).map fun v => .str (String.mk (pyStrip v)))

/-! ## `hybrid_bert_model.HybridBERTExtractor.extract_with_regex` patterns -/

/-- `\bИНН[:\s]*(\d{10}|\d{12})\b`, `re.IGNORECASE`. -/
def hInn : RE :=
  rcat [.bnd, rstrIC "ИНН", rstar clsColonSpace,
    .grp 1 (.alt (rexact 10 rdigit) (rexact 12 rdigit)), .bnd]

/-- `\b(\d{2}[.]\d{2}[.]\d{4})\b`. -/
def hDate1 : RE :=
  rcat [.bnd, .grp 1 (rcat [rexact 2 rdigit, lit '.', rexact 2 rdigit, lit '.',
    rexact 4 rdigit]), .bnd]

/-- `\b(\d{2}[.]\d{2}[.]\d{2})\b`. -/
def hDate2 : RE :=
  rcat [.bnd, .grp 1 (rcat [rexact 2 rdigit, lit '.', rexact 2 rdigit, lit '.',
    rexact 2 rdigit]), .bnd]

/-- `\b(\d{2}:\d{2}:\d{2})\b`. -/
def hTime1 : RE :=
  rcat [.bnd, .grp 1 (rcat [rexact 2 rdigit, lit ':', rexact 2 rdigit, lit ':',
    rexact 2 rdigit]), .bnd]

/-- `\b(\d{2}:\d{2})\b`. -/
def hTime2 : RE :=
  rcat [.bnd, .grp 1 (rcat [rexact 2 rdigit, lit ':', rexact 2 rdigit]), .bnd]

/-- `ИТОГО?` (the label with an optional final letter). -/
def labITOGO : RE := .seq (rstrIC "ИТОГ") (ropt (litIC 'О'))

/-- `Итого?`. -/
def labItogo : RE := .seq (rstrIC "Итог") (ropt (litIC 'о'))

/-- `(?:₽|руб|RUB|Р|P)?`. -/
def currencyOpt : RE :=
  ropt (ror [rstrIC "₽", rstrIC "руб", rstrIC "RUB", rstrIC "Р", rstrIC "P"])

/-- `\d{1,3}[\s,]` (one thousand-separator group). -/
def thouGrp : RE :=
  rcat [.rep 1 (some 3) rdigit, .cls fun c => pySpace c || c == ',']

/-- `(?:\d{1,3}[\s,])*\d+[.,]\d{2}` (the common decimal-amount shape). -/
def decNum : RE :=
  rcat [rstar thouGrp, rplus rdigit, clsDotComma, rexact 2 rdigit]

/-- `(?:ИТОГО?|СУММА|TOTAL|ВСЕГО|Итого?|К оплате|Всего к оплате|Сумма заказа)[:\s=]*((?:\d{1,3}[\s]\d{3}[\s]\d{3}|[\d\s]{1,15})[.,]\d{2})\s*(?:₽|руб|RUB|Р|P)?`,
`re.IGNORECASE`. -/
def hTotal1 : RE :=
  rcat [ror [labITOGO, rstrIC "СУММА", rstrIC "TOTAL", rstrIC "ВСЕГО", labItogo,
      rstrIC "К оплате", rstrIC "Всего к оплате", rstrIC "Сумма заказа"],
    rstar clsColonSpaceEq,
    .grp 1 (rcat [.alt (rcat [.rep 1 (some 3) rdigit, rws, rexact 3 rdigit, rws,
        rexact 3 rdigit]) (.rep 1 (some 15) clsDigitSpace),
      clsDotComma, rexact 2 rdigit]),
    rstar rws, currencyOpt]

/-- `(?:ИТОГО?|СУММА|TOTAL|ВСЕГО|Итого?|Сумма заказа)[:\s=]*((?:\d{1,3}[\s,])*\d+[.,]\d{2})\s*(?:₽|руб|RUB|Р|P)?`,
`re.IGNORECASE`. -/
def hTotal2 : RE :=
  rcat [ror [labITOGO, rstrIC "СУММА", rstrIC "TOTAL", rstrIC "ВСЕГО", labItogo,
      rstrIC "Сумма заказа"],
    rstar clsColonSpaceEq, .grp 1 decNum, rstar rws, currencyOpt]

/-- `(?:Электронный\s+платеж|Оплата)[:\s]*((?:\d{1,3}[\s,])*\d+[.,]\d{2})`,
`re.IGNORECASE`. -/
def hTotal3 : RE :=
  rcat [ror [rcat [rstrIC "Электронный", rplus rws, rstrIC "платеж"], rstrIC "Оплата"],
    rstar clsColonSpace, .grp 1 decNum]

/-- `(?:Сумма в валюте карты|Сумма операции|К оплате)[:\s]*((?:\d{1,3}[\s,])*\d+[.,]\d{2})`,
`re.IGNORECASE`. -/
def hTotal4 : RE :=
  rcat [ror [rstrIC "Сумма в валюте карты", rstrIC "Сумма операции", rstrIC "К оплате"],
    rstar clsColonSpace, .grp 1 decNum]

/-- `(?:^|\n)\s*((?:\d{1,3}[\s,])*\d+[.,]\d{2})\s*(?:RUB|руб|₽|Р)\s*(?:\n|$)`,
`re.IGNORECASE` (no `MULTILINE`, so `^`/`$` anchor to the string ends). -/
def hTotal5 : RE :=
  rcat [.alt .bos (lit '\n'), rstar rws, .grp 1 decNum, rstar rws,
    ror [rstrIC "RUB", rstrIC "руб", rstrIC "₽", rstrIC "Р"], rstar rws,
    .alt (lit '\n') .eos]

/-- `((?:\d{1,3}[\s,])+\d{2,}[.,]\d{2})\s*(?:₽|руб|RUB)`, `re.IGNORECASE`. -/
def hTotal6 : RE :=
  rcat [.grp 1 (rcat [rplus thouGrp, .rep 2 none rdigit, clsDotComma, rexact 2 rdigit]),
    rstar rws, ror [rstrIC "₽", rstrIC "руб", rstrIC "RUB"]]

/-- `(?:ИТОГО?|СУММА|ВСЕГО|Итого?|К оплате|Всего к оплате|Сумма заказа)[:\s=]*((?:\d{1,3}[\s]\d{3}|\d{2,6}))\s*(?:₽|руб|RUB|Р|P|i)?`,
`re.IGNORECASE`. -/
def hTotal7 : RE :=
  rcat [ror [labITOGO, rstrIC "СУММА", rstrIC "ВСЕГО", labItogo, rstrIC "К оплате",
      rstrIC "Всего к оплате", rstrIC "Сумма заказа"],
    rstar clsColonSpaceEq,
    .grp 1 (.alt (rcat [.rep 1 (some 3) rdigit, rws, rexact 3 rdigit])
      (.rep 2 (some 6) rdigit)),
    rstar rws,
    ropt (ror [rstrIC "₽", rstrIC "руб", rstrIC "RUB", rstrIC "Р", rstrIC "P",
      rstrIC "i"])]

def hybridTotalPatterns : List RE :=
  [hTotal1, hTotal2, hTotal3, hTotal4, hTotal5, hTotal6, hTotal7]

/-- `\b[A-Za-z0-9._%+-]+@[A-Za-z0-9.-]+\.[A-Z|a-z]{2,}\b` (the class `[A-Z|a-z]`
literally contains the bar character). -/
def hEmail : RE :=
  rcat [.bnd, rplus (.cls emailLocalChar), lit '@', rplus (.cls emailDomChar),
    lit '.', .rep 2 none (.cls fun c => c.isAlpha || c == '|'), .bnd]

/-- `\+?[78][\s-]?\(?\d{3}\)?[\s-]?\d{3}[\s-]?\d{2}[\s-]?\d{2}` (no capture
groups; the hybrid extractor keeps `group(0)` as found). -/
def hPhone : RE :=
  rcat [ropt (lit '+'), .cls (fun c => c == '7' || c == '8'), sepSp, ropt (lit '('),
    rexact 3 rdigit, ropt (lit ')'), sepSp, rexact 3 rdigit, sepSp,
    rexact 2 rdigit, sepSp, rexact 2 rdigit]

/-- `((?:ООО|ИП|ПАО|АО|ЗАО)\s+["]?[А-ЯЁа-яё\s\-]{3,50}["]?)` (the source's
character class `["\"]` contains only the ASCII double quote). -/
def hVendor : RE :=
  .grp 1 (rcat [ror [rstr "ООО", rstr "ИП", rstr "ПАО", rstr "АО", rstr "ЗАО"],
    rplus rws, ropt (lit '"'),
    .rep 3 (some 50) (.cls fun c => cyrU c || cyrL c || pySpace c || c == '-'),
    ropt (lit '"')])

/-- `[a-z]` under `re.IGNORECASE` (also matches the uppercase letters). -/
def asciiAlphaIC (c : Char) : Bool := c.isAlpha

/-- `ФНС[:\s]+([a-z0-9\-\.]+\.[a-z]{2,})`, `re.IGNORECASE`. -/
def hOfd1 : RE :=
  rcat [rstrIC "ФНС", rplus clsColonSpace,
    .grp 1 (rcat [rplus (.cls fun c => asciiAlphaIC c || c.isDigit || c == '-' || c == '.'),
      lit '.', .rep 2 none (.cls asciiAlphaIC)])]

/-- `((?:ofd|nalog|taxcom|platformaofd)\.[a-z]{2,})`, `re.IGNORECASE`. -/
def hOfd2 : RE :=
  .grp 1 (rcat [ror [rstrIC "ofd", rstrIC "nalog", rstrIC "taxcom",
    rstrIC "platformaofd"], lit '.', .rep 2 none (.cls asciiAlphaIC)])

/-- The total-candidate collection of the hybrid extractor: every `finditer`
match of every total pattern, cleaned (`,`→`.`, spaces removed), parsed as a
float and kept when strictly above 50. -/
def hybridTotalCands (s : List Char) : List (PyF × List Char) :=
  hybridTotalPatterns.flatMap fun re =>
    (reFinditer re s).filterMap fun m =>
      (matchGroup s m 1).bind fun g =>
        let value := removeSpaces (commaToDot g)
        (pyFloat? value).bind fun q =>
          if PyF.lt (PyF.ofNat 50) q then some (q, value) else none

/-- Python string `<` (lexicographic on code points), for the tuple comparison
in `all_totals.sort(reverse=True)`. -/
def listCharLt : List Char → List Char → Bool
  | [], [] => false
  | [], _ :: _ => true
  | _ :: _, [] => false
  | a :: as, b :: bs =>
      if a.toNat < b.toNat then true
      else if b.toNat < a.toNat then false
      else listCharLt as bs

/-- Python tuple `>` on `(float, str)` pairs. -/
def pairGt (x y : PyF × List Char) : Bool :=
  PyF.lt y.1 x.1 || (PyF.beq x.1 y.1 && listCharLt y.2 x.2)

/-- `all_totals.sort(reverse=True); all_totals[0]`: the greatest pair, keeping
the earliest among equals (the sort is stable). -/
def pickBest : List (PyF × List Char) → Option (PyF × List Char)
  | [] => none
  | x :: rest => some (rest.foldl (fun acc z => if pairGt z acc then z else acc) x)

/-- `match.group(1).strip().replace('"', '').replace('"', '').strip()`. -/
def cleanVendorH (v : List Char) : List Char :=
  pyStrip (removeChar '"' (pyStrip v))

/-- The hybrid vendor loop: first pattern whose cleaned match is longer than 5
characters wins; a shorter match does not break the loop. -/
def hVendorLoop : List RE → List Char → Option (List Char)
  | [], _ => none
  | re :: rest, s =>
      match search1 re s with
      | some m =>
          let v := cleanVendorH m
          if 5 < v.length then some v else hVendorLoop rest s
      | none => hVendorLoop rest s

/-- `HybridBERTExtractor.extract_with_regex`. -/
def extract_with_regex (s : List Char) : Record :=
  let r1 := optSetKey [] "inn" ((search1 hInn s).map fun v => .str (String.mk v))
  let r2 := optSetKey r1 "date"
    ((firstSome1 [hDate1, hDate2] s).map fun v => .str (String.mk v))
  let r3 := optSetKey r2 "time"
    ((firstSome1 [hTime1, hTime2] s).map fun v => .str (String.mk v))
  let r4 := optSetKey r3 "total"
    ((pickBest (hybridTotalCands s)).map fun pr => .str (String.mk pr.2))
  let r5 := optSetKey r4 "email" ((search0 hEmail s).map fun v => .str (String.mk v))
  let r6 := optSetKey r5 "phone" ((search0 hPhone s).map fun v => .str (String.mk v))
  let r7 := optSetKey r6 "vendor"
    ((hVendorLoop [hVendor] s).map fun v => .str (String.mk v))
  optSetKey r7 "ofd" ((firstSome1 [hOfd1, hOfd2] s).map fun v => .str (String.mk v))

/-! ## `auto_extract_training_data.extract_data_from_text` -/

/-- `(?:Итого|ИТОГО|Всего|ВСЕГО|К оплате|Сумма|СУММА|итог|total)[:\s=]*([\d\s]+[.,]\d{1,2})`,
`re.IGNORECASE`. -/
def aTotalLab : RE :=
  rcat [ror [rstrIC "Итого", rstrIC "ИТОГО", rstrIC "Всего", rstrIC "ВСЕГО",
      rstrIC "К оплате", rstrIC "Сумма", rstrIC "СУММА", rstrIC "итог", rstrIC "total"],
    rstar clsColonSpaceEq,
    .grp 1 (rcat [rplus clsDigitSpace, clsDotComma, .rep 1 (some 2) rdigit])]

/-- `[=]\s*([\d\s]+[.,]\d{1,2})`. -/
def aEq : RE :=
  rcat [lit '=', rstar rws,
    .grp 1 (rcat [rplus clsDigitSpace, clsDotComma, .rep 1 (some 2) rdigit])]

/-- `\b(\d{2,}[.,]\d{1,2})\b` (the corpus-wide number scan of the fallback). -/
def aScan : RE :=
  rcat [.bnd, .grp 1 (rcat [.rep 2 none rdigit, clsDotComma, .rep 1 (some 2) rdigit]),
    .bnd]

/-- Python `max` over a list of floats. -/
def pyMaxQ : List PyF → Option PyF
  | [] => none
  | x :: r => some (r.foldl PyF.max x)

/-- The parsed values of the fallback scan: every `findall` match of `aScan`,
comma turned into a dot, parsed as a float (parse failures skipped). -/
def scanAmounts (s : List Char) : List PyF :=
  (findall1 aScan s).filterMap fun a => pyFloat? (commaToDot a)

/-- The vendor cleaning of `extract_data_from_text`:
`group(1).strip()` then `.replace('«','').replace('»','').replace('"','')`. -/
def cleanVendorA (v : List Char) : List Char :=
  removeChar '"' (removeChar '»' (removeChar '«' (pyStrip v)))

/-- `auto_extract_training_data.extract_data_from_text`. -/
def extract_data_from_text (s : List Char) : Record :=
  let d1 := optSetKey [] "inn" ((search1 pInn s).map fun v => .str (String.mk v))
  let d2 := optSetKey d1 "vendor"
    ((firstSome1 [pVendor1, pVendor2, pVendor3] s).map fun v =>
      .str (String.mk (cleanVendorA v)))
  let d3 := optSetKey d2 "date"
    ((firstSome1 [pDate1, pDate2, pDate4, pDate5] s).map fun v => .str (String.mk v))
  match (search1 aTotalLab s).orElse (fun _ => search1 aEq s) with
  | some g =>
      let amount := commaToDot (removeSpaces g)
      setKey d3 "total"
        (match pyFloat? amount with
         | some q => .num q
         | none => .str (String.mk amount))
  | none =>
      match pyMaxQ (scanAmounts s) with
      | some m => if PyF.le (PyF.ofNat 1) m then setKey d3 "total" (.num m) else d3
      | none => d3

/-! ## `ml_model.InvoiceDataExtractor` -/

/-- `инн[:\s]*(\d{10,12})`, `re.IGNORECASE`. -/
def mlInn2 : RE :=
  rcat [rstrIC "инн", rstar clsColonSpace, .grp 1 (.rep 10 (some 12) rdigit)]

/-- `ИНН\s*:\s*(\d{10,12})`, `re.IGNORECASE`. -/
def mlInn3 : RE :=
  rcat [rstrIC "ИНН", rstar rws, litIC ':', rstar rws, .grp 1 (.rep 10 (some 12) rdigit)]

/-- `[А-ЯЁ]` / `[а-яё]` under `re.IGNORECASE` (both cases match). -/
def cyrAnyIC (c : Char) : Bool := cyrU c || cyrL c

/-- `(ООО\s+["«]?[^"»\n]{3,50}["»]?)`, `re.IGNORECASE`. -/
def mlVendor1 : RE :=
  .grp 1 (rcat [rstrIC "ООО", rplus rws, ropt (.cls quoteOpen),
    .rep 3 (some 50) (.cls notQuoteCloseNl), ropt (.cls quoteClose)])

/-- `(АО\s+["«]?[^"»\n]{3,50}["»]?)`, `re.IGNORECASE`. -/
def mlVendor2 : RE :=
  .grp 1 (rcat [rstrIC "АО", rplus rws, ropt (.cls quoteOpen),
    .rep 3 (some 50) (.cls notQuoteCloseNl), ropt (.cls quoteClose)])

/-- `(ИП\s+[А-ЯЁ][а-яё]+\s+[А-ЯЁ][а-яё]+\s+[А-ЯЁ][а-яё]+)`, `re.IGNORECASE`. -/
def mlVendor3 : RE :=
  .grp 1 (rcat [rstrIC "ИП", rplus rws,
    .cls cyrAnyIC, rplus (.cls cyrAnyIC), rplus rws,
    .cls cyrAnyIC, rplus (.cls cyrAnyIC), rplus rws,
    .cls cyrAnyIC, rplus (.cls cyrAnyIC)])

/-- `([А-ЯЁ][А-ЯЁ\s]{10,50}(?:ООО|АО|ИП))`, `re.IGNORECASE`. -/
def mlVendor4 : RE :=
  .grp 1 (rcat [.cls cyrAnyIC, .rep 10 (some 50) (.cls fun c => cyrAnyIC c || pySpace c),
    ror [rstrIC "ООО", rstrIC "АО", rstrIC "ИП"]])

/-- `(?:СУММА|Сумма)[:\s]*([\d\s]+[.,]\d{2})`, `re.IGNORECASE`. -/
def mlTotal3 : RE :=
  rcat [ror [rstrIC "СУММА", rstrIC "Сумма"], rstar clsColonSpace, totalNumGrp]

def mlFields : List String := ["inn", "vendor", "date", "total"]

/-- `self.patterns` of `InvoiceDataExtractor.__init__` (always searched with
`re.IGNORECASE` by `extract_with_pattern`); an unknown field owns no patterns. -/
def mlPatterns (field : String) : List RE :=
  if field = "inn" then [pInn, mlInn2, mlInn3]
  else if field = "vendor" then [mlVendor1, mlVendor2, mlVendor3, mlVendor4]
  else if field = "date" then [pDate1, pDate2, pDate3, pDate4, pDate5]
  else if field = "total" then [pTotal1, pTotal2, mlTotal3]
  else []

/-- `self.pattern_weights`: one float per pattern, per field. -/
structure MLW where
  inn : List PyF
  vendor : List PyF
  date : List PyF
  total : List PyF
deriving DecidableEq, Repr

def MLW.get (w : MLW) (field : String) : List PyF :=
  if field = "inn" then w.inn
  else if field = "vendor" then w.vendor
  else if field = "date" then w.date
  else if field = "total" then w.total
  else []

def MLW.set (w : MLW) (field : String) (l : List PyF) : MLW :=
  if field = "inn" then { w with inn := l }
  else if field = "vendor" then { w with vendor := l }
  else if field = "date" then { w with date := l }
  else if field = "total" then { w with total := l }
  else w

/-- `pattern_weights[field] = [1.0] * len(patterns)` for every field. -/
def mlInit : MLW :=
  ⟨List.replicate 3 (PyF.ofNat 1), List.replicate 4 (PyF.ofNat 1),
    List.replicate 5 (PyF.ofNat 1), List.replicate 3 (PyF.ofNat 1)⟩

/-- `InvoiceDataExtractor.extract_with_pattern`: `re.findall(pattern, text,
re.IGNORECASE)` — the group-1 strings of all matches. -/
def extract_with_pattern (s : List Char) (re : RE) : List (List Char) :=
  findall1 re s

/-- `InvoiceDataExtractor._clean_value`. -/
def clean_value (v : List Char) (field : String) : Value :=
  if field = "total" then
    match pyFloat? (commaToDot (removeSpaces v)) with
    | some q => .num q
    | none => .str (String.mk v)
  else if field = "vendor" then
    .str (String.mk (removeChar '"' (removeChar '»' (removeChar '«' (pyStrip v)))))
  else .str (String.mk (pyStrip v))

/-- `InvoiceDataExtractor.extract_field`: all candidates of all patterns with
their weights (the weight list runs parallel to the pattern list, as
established by `__init__`), then Python `max` by weight — the first candidate
with the greatest weight. -/
def extract_field (w : MLW) (s : List Char) (field : String) : Value :=
  if field ∈ mlFields then
    let candidates := ((mlPatterns field).zip (w.get field)).flatMap fun rw =>
      (extract_with_pattern s rw.1).map fun m => (m, rw.2)
    match candidates with
    | [] => .str UNRECOGNIZED
    | c0 :: rest =>
        let best := rest.foldl (fun acc c => if PyF.lt acc.2 c.2 then c else acc) c0
        clean_value best.1 field
  else .str UNRECOGNIZED

/-- `InvoiceDataExtractor.predict`. -/
def mlPredict (w : MLW) (s : List Char) : Record :=
  let r := mlFields.foldl (fun r f => setKey r f (extract_field w s f)) []
  let r2 := optSetKey r "phone" ((phoneSearch s).map fun v => .str (String.mk v))
  optSetKey r2 "email" ((search1 pEmail s).map fun v => .str (String.mk v))

def lowerAll (s : List Char) : List Char := s.map lowerRu

/-- `InvoiceDataExtractor._normalize_for_comparison`. -/
def normalize_for_comparison (t : String) : List Char :=
  if t = "" ∨ t = UNRECOGNIZED then []
  else removeChar '»' (removeChar '«' (removeChar '"' (removeSpaces (pyStrip (lowerAll t.data)))))

/-- Python `str()` of a prediction value (`str` of a string is itself;
`str` of the floats produced here is their shortest decimal form). -/
def pyValueStr : Value → String
  | .str t => t
  | .num q => qRepr q

/-- One weight adjustment: `+= 0.01` on reward, `max(0.1, w - 0.01)` on penalty. -/
def update_one (reward : Bool) (w : PyF) : PyF :=
  if reward then w.add ⟨1, 99⟩ else PyF.max ⟨1, 9⟩ (w.sub ⟨1, 99⟩)

/-- `InvoiceDataExtractor._update_weights`: every pattern of the field whose
`findall` matches contain the predicted value is adjusted. -/
def update_weights (w : MLW) (s : List Char) (field predicted : String)
    (reward : Bool) : MLW :=
  if field ∈ mlFields then
    w.set field
      (List.zipWith
        (fun re wi =>
          if predicted ∈ (extract_with_pattern s re).map String.mk then
            update_one reward wi
          else wi)
        (mlPatterns field) (w.get field))
  else w

/-- One labeled example inside an epoch of `InvoiceDataExtractor.train`:
predictions are computed once, then each mandatory field present in the ground
truth is compared with the lenient equality and `_update_weights` is applied. -/
def trainExample (w : MLW) (ex : List Char × List (String × String)) : MLW :=
  let predictions := mlPredict w ex.1
  mlFields.foldl
    (fun wa field =>
      match ex.2.lookup field with
      | none => wa
      | some actual =>
          let predicted := pyValueStr ((getKey predictions field).getD (.str UNRECOGNIZED))
          let pn := normalize_for_comparison predicted
          let an := normalize_for_comparison actual
          let correct := pn == an || pyIn pn an || pyIn an pn
          update_weights wa ex.1 field predicted correct)
    w

def trainEpoch (w : MLW) (data : List (List Char × List (String × String))) : MLW :=
  data.foldl trainExample w

/-- `InvoiceDataExtractor.train`, tracking the pattern weights (the loss and
accuracy metrics it also accumulates are logging only and do not feed back
into the weights). -/
def train (data : List (List Char × List (String × String))) (epochs : Nat) : MLW :=
  (List.range epochs).foldl (fun w _ => trainEpoch w data) mlInit

/-! ## `processor.extract_invoice_data` (orchestration over the text)

PDF parsing and OCR (`extract_text_from_pdf`) are external collaborators; the
orchestrator is embedded from the extracted text on, parameterised by the
selected step-2 extractor (`HYBRID_BERT_MODEL.predict` when the model loaded,
`process_with_regex` otherwise). -/

def extract_invoice_data (extractor : List Char → Record) (s : List Char) : Record :=
  if s = [] ∨ (pyStrip s).length < 10 then
    [("error", .str "Не удалось извлечь текст из PDF"),
     ("details", .str "PDF может быть пустым или поврежденным")]
  else delKey "ml_confidence" (extractor s)

/-! ## Record lemmas -/

theorem getKey_setKey_self (r : Record) (k : String) (v : Value) :
    getKey (setKey r k v) k = some v := by
  induction r with
  | nil => simp [setKey, getKey]
  | cons kv r ih =>
      obtain ⟨k0, v0⟩ := kv
      by_cases h : k0 = k
      · simp [setKey, getKey, h]
      · simp [setKey, getKey, h, ih]

theorem getKey_setKey_ne (r : Record) {k k0 : String} (v : Value) (h : k0 ≠ k) :
    getKey (setKey r k0 v) k = getKey r k := by
  induction r with
  | nil => simp [setKey, getKey, h]
  | cons kv r ih =>
      obtain ⟨k1, v1⟩ := kv
      by_cases h1 : k1 = k0
      · subst h1; simp [setKey, getKey, h]
      · simp [setKey, getKey, h1, ih]

theorem getKey_optSetKey_ne (r : Record) {k k0 : String} (o : Option Value) (h : k0 ≠ k) :
    getKey (optSetKey r k0 o) k = getKey r k := by
  cases o with
  | none => rfl
  | some v => exact getKey_setKey_ne r v h

theorem getKey_optSetKey_self (r : Record) (k : String) (o : Option Value) :
    getKey (optSetKey r k o) k =
      match o with
      | some v => some v
      | none => getKey r k := by
  cases o with
  | none => rfl
  | some v => exact getKey_setKey_self r k v

/-! ## Engine lemmas -/

theorem head?_mem {α : Type} {l : List α} {x : α} (h : l.head? = some x) : x ∈ l := by
  cases l with
  | nil => simp at h
  | cons a l => simp at h; simp [h]

theorem mem_mrun_eps {s : List Char} {i : Nat} {cp : Caps} {r : Nat × Caps} :
    r ∈ mrun s .eps i cp ↔ r = (i, cp) := by
  simp [mrun]

theorem mem_mrun_cls {s : List Char} {p : Char → Bool} {i : Nat} {cp : Caps}
    {r : Nat × Caps} :
    r ∈ mrun s (.cls p) i cp ↔ ∃ c, s[i]? = some c ∧ p c ∧ r = (i + 1, cp) := by
  unfold mrun
  cases h : s[i]? with
  | none => simp
  | some c =>
      by_cases hp : p c
      · simp [hp]
      · simp [hp]

theorem mem_mrun_seq {s : List Char} {a b : RE} {i : Nat} {cp : Caps} {r : Nat × Caps} :
    r ∈ mrun s (.seq a b) i cp ↔ ∃ jc ∈ mrun s a i cp, r ∈ mrun s b jc.1 jc.2 := by
  simp [mrun]

theorem mem_mrun_alt {s : List Char} {a b : RE} {i : Nat} {cp : Caps} {r : Nat × Caps} :
    r ∈ mrun s (.alt a b) i cp ↔ r ∈ mrun s a i cp ∨ r ∈ mrun s b i cp := by
  simp [mrun]

theorem mem_mrun_grp {s : List Char} {n : Nat} {a : RE} {i : Nat} {cp : Caps}
    {r : Nat × Caps} :
    r ∈ mrun s (.grp n a) i cp ↔
      ∃ jc ∈ mrun s a i cp, r = (jc.1, setCap jc.2 n i jc.1) := by
  simp only [mrun, List.mem_map]
  constructor
  · rintro ⟨jc, hjc, rfl⟩; exact ⟨jc, hjc, rfl⟩
  · rintro ⟨jc, hjc, rfl⟩; exact ⟨jc, hjc, rfl⟩

theorem mem_mrun_rep {s : List Char} {lo : Nat} {hi : Option Nat} {a : RE} {i : Nat}
    {cp : Caps} {r : Nat × Caps} :
    r ∈ mrun s (.rep lo hi a) i cp ↔
      r ∈ repRun (mrun s a) (lo + (s.length - i) + 1) lo hi i cp := by
  simp [mrun]

/-- Membership in a `repRun` over a character class: captures untouched, at
least `lo` and (when a consistent bound is given) at most `hi` characters
consumed, and every consumed character satisfies the class. -/
theorem repRun_cls_spec {s : List Char} {p : Char → Bool} (fuel : Nat) :
    ∀ (lo : Nat) (hi : Option Nat) (i : Nat) (cp : Caps) (r : Nat × Caps),
      r ∈ repRun (mrun s (.cls p)) fuel lo hi i cp →
      r.2 = cp ∧ i + lo ≤ r.1 ∧
        (∀ n, hi = some n → lo ≤ n → r.1 ≤ i + n) ∧
        (∀ k, i ≤ k → k < r.1 → ∃ c, s[k]? = some c ∧ p c) := by
  induction fuel with
  | zero => intro lo hi i cp r h; simp [repRun] at h
  | succ fuel ih =>
      intro lo hi i cp r h
      cases lo with
      | succ lo =>
          simp only [repRun, List.mem_flatMap] at h
          obtain ⟨jc, hjc, hr⟩ := h
          obtain ⟨c, hc, hpc, rfl⟩ := mem_mrun_cls.1 hjc
          obtain ⟨hcp, hlo, hhi, hchars⟩ := ih lo _ _ _ _ hr
          refine ⟨hcp, by omega, ?_, ?_⟩
          · intro n hn hln
            have := hhi (n - 1) (by simp [hn]) (by omega)
            omega
          · intro k hk1 hk2
            rcases Nat.eq_or_lt_of_le hk1 with rfl | hk
            · exact ⟨c, hc, hpc⟩
            · exact hchars k hk hk2
      | zero =>
          simp only [repRun] at h
          by_cases h0 : hi = some 0
          · simp only [h0, if_pos rfl] at h
            simp at h
            subst h
            refine ⟨rfl, by omega, ?_, ?_⟩
            · intro n hn _; rw [h0] at hn
              injection hn with hn; omega
            · intro k hk1 hk2; simp at hk2; omega
          · rw [if_neg h0] at h
            rcases List.mem_append.1 h with h | h
            · simp only [List.mem_flatMap] at h
              obtain ⟨jc, hjc, hr⟩ := h
              obtain ⟨c, hc, hpc, rfl⟩ := mem_mrun_cls.1 hjc
              rw [if_neg (by omega)] at hr
              obtain ⟨hcp, hlo, hhi, hchars⟩ := ih 0 _ _ _ _ hr
              refine ⟨hcp, by omega, ?_, ?_⟩
              · intro n hn _
                have hn0 : n ≠ 0 := by rintro rfl; exact h0 hn
                have := hhi (n - 1) (by simp [hn]) (by omega)
                omega
              · intro k hk1 hk2
                rcases Nat.eq_or_lt_of_le hk1 with rfl | hk
                · exact ⟨c, hc, hpc⟩
                · exact hchars k hk hk2
            · simp at h
              subst h
              refine ⟨rfl, by omega, by intro n hn _; omega, ?_⟩
              intro k hk1 hk2; simp at hk2; omega

/-- Syntactic absence of capture groups. -/
def noGrp : RE → Bool
  | .eps | .bnd | .bos | .eos => true
  | .cls _ => true
  | .seq a b => noGrp a && noGrp b
  | .alt a b => noGrp a && noGrp b
  | .rep _ _ a => noGrp a
  | .grp _ _ => false

theorem repRun_caps_pres {body : Nat → Caps → List (Nat × Caps)}
    (hbody : ∀ i cp r, r ∈ body i cp → r.2 = cp) (fuel : Nat) :
    ∀ (lo : Nat) (hi : Option Nat) (i : Nat) (cp : Caps) (r : Nat × Caps),
      r ∈ repRun body fuel lo hi i cp → r.2 = cp := by
  induction fuel with
  | zero => intro lo hi i cp r h; simp [repRun] at h
  | succ fuel ih =>
      intro lo hi i cp r h
      cases lo with
      | succ lo =>
          simp only [repRun, List.mem_flatMap] at h
          obtain ⟨jc, hjc, hr⟩ := h
          have := hbody _ _ _ hjc
          rw [ih lo _ _ _ _ hr, this]
      | zero =>
          simp only [repRun] at h
          by_cases h0 : hi = some 0
          · simp only [h0, if_pos rfl] at h
            simp at h; simp [h]
          · rw [if_neg h0] at h
            rcases List.mem_append.1 h with h | h
            · simp only [List.mem_flatMap] at h
              obtain ⟨jc, hjc, hr⟩ := h
              by_cases hji : jc.1 ≤ i
              · rw [if_pos hji] at hr; simp at hr
              · rw [if_neg hji] at hr
                rw [ih 0 _ _ _ _ hr, hbody _ _ _ hjc]
            · simp at h; simp [h]

/-- A groupless subexpression leaves the capture table unchanged. -/
theorem mrun_caps_pres {s : List Char} :
    ∀ (re : RE), noGrp re = true →
      ∀ (i : Nat) (cp : Caps) (r : Nat × Caps), r ∈ mrun s re i cp → r.2 = cp := by
  intro re
  induction re with
  | eps => intro _ i cp r h; rw [mem_mrun_eps.1 h]
  | cls p => intro _ i cp r h; obtain ⟨c, _, _, rfl⟩ := mem_mrun_cls.1 h; rfl
  | seq a b iha ihb =>
      intro hn i cp r h
      simp [noGrp] at hn
      obtain ⟨jc, hjc, hr⟩ := mem_mrun_seq.1 h
      rw [ihb hn.2 _ _ _ hr, iha hn.1 _ _ _ hjc]
  | alt a b iha ihb =>
      intro hn i cp r h
      simp [noGrp] at hn
      rcases mem_mrun_alt.1 h with h | h
      · exact iha hn.1 _ _ _ h
      · exact ihb hn.2 _ _ _ h
  | rep lo hi a iha =>
      intro hn i cp r h
      simp [noGrp] at hn
      exact repRun_caps_pres (fun i cp r hr => iha hn i cp r hr) _ _ _ _ _ _
        (mem_mrun_rep.1 h)
  | grp n a iha => intro hn _ _ _ _; simp [noGrp] at hn
  | bnd => intro _ i cp r h; unfold mrun at h; split at h <;> simp_all
  | bos => intro _ i cp r h; unfold mrun at h; split at h <;> simp_all
  | eos => intro _ i cp r h; unfold mrun at h; split at h <;> simp_all

theorem searchAux_spec {re : RE} {s : List Char} (fuel : Nat) :
    ∀ (i st en : Nat) (cp : Caps), searchAux re s fuel i = some (st, en, cp) →
      (en, cp) ∈ mrun s re st [] := by
  induction fuel with
  | zero => intro i st en cp h; simp [searchAux] at h
  | succ fuel ih =>
      intro i st en cp h
      rw [searchAux] at h
      cases hh : (mrun s re i []).head? with
      | some jc =>
          rw [hh] at h
          dsimp only at h
          injection h with h
          rw [Prod.mk.injEq] at h
          obtain ⟨rfl, h2⟩ := h
          rw [Prod.mk.injEq] at h2
          obtain ⟨rfl, rfl⟩ := h2
          exact head?_mem hh
      | none =>
          rw [hh] at h
          dsimp only at h
          by_cases hi : i < s.length
          · rw [if_pos hi] at h
            exact ih _ _ _ _ h
          · rw [if_neg hi] at h
            simp at h

theorem reSearch_spec {re : RE} {s : List Char} {st en : Nat} {cp : Caps}
    (h : reSearch re s = some (st, en, cp)) : (en, cp) ∈ mrun s re st [] :=
  searchAux_spec _ _ _ _ _ h

/-! ## Slice lemmas -/

theorem length_slice {s : List Char} {a b : Nat} (hb : b ≤ s.length) :
    (slice s a b).length = b - a := by
  simp [slice]
  omega

theorem mem_slice {s : List Char} {a b : Nat} {c : Char} (h : c ∈ slice s a b) :
    ∃ k, a ≤ k ∧ k < b ∧ s[k]? = some c := by
  unfold slice at h
  obtain ⟨j, hj, hget⟩ := List.mem_iff_getElem.1 h
  have hj2 : j < b - a := by
    have := hj; simp [List.length_take, List.length_drop] at this; omega
  have hj3 : a + j < s.length := by
    have := hj; simp [List.length_take, List.length_drop] at this; omega
  refine ⟨a + j, by omega, by omega, ?_⟩
  rw [List.getElem_take, List.getElem_drop] at hget
  rw [List.getElem?_eq_getElem hj3, hget]

/-! ## Builder characterizations -/

theorem getKey_optSetKey_none {r : Record} {k : String} (o : Option Value)
    (h : getKey r k = none) : getKey (optSetKey r k o) k = o := by
  cases o with
  | none => exact h
  | some v => exact getKey_setKey_self r k v

theorem plain_inn_eq (s : List Char) :
    getKey (process_with_regex s) "inn" =
      some (.str (match search1 pInn s with
        | some v => String.mk v
        | none => UNRECOGNIZED)) := by
  simp [process_with_regex, getKey_optSetKey_ne, getKey_setKey_ne, getKey_setKey_self]

theorem plain_vendor_eq (s : List Char) :
    getKey (process_with_regex s) "vendor" =
      some (.str (match firstSome1 [pVendor1, pVendor2, pVendor3, pVendor4] s with
        | some v => String.mk (pyStrip v)
        | none => UNRECOGNIZED)) := by
  simp [process_with_regex, getKey_optSetKey_ne, getKey_setKey_ne, getKey_setKey_self]

theorem plain_invoice_eq (s : List Char) :
    getKey (process_with_regex s) "invoice_number" =
      some (.str (match firstSome1 [pInvoice1, pInvoice2, pInvoice3, pInvoice4] s with
        | some v => String.mk v
        | none => UNRECOGNIZED)) := by
  simp [process_with_regex, getKey_optSetKey_ne, getKey_setKey_ne, getKey_setKey_self]

theorem plain_date_eq (s : List Char) :
    getKey (process_with_regex s) "date" =
      some (.str (match firstSome1 [pDate1, pDate2, pDate3, pDate4, pDate5] s with
        | some v => String.mk v
        | none => UNRECOGNIZED)) := by
  simp [process_with_regex, getKey_optSetKey_ne, getKey_setKey_ne, getKey_setKey_self]

theorem plain_total_eq (s : List Char) :
    getKey (process_with_regex s) "total" =
      some (match firstSome1 [pTotal1, pTotal2] s with
        | some g =>
            match pyFloat? (commaToDot (removeSpaces g)) with
            | some q => .num q
            | none => .str (String.mk (commaToDot (removeSpaces g)))
        | none => .str UNRECOGNIZED) := by
  simp [process_with_regex, getKey_optSetKey_ne, getKey_setKey_ne, getKey_setKey_self]

theorem plain_phone_eq (s : List Char) :
    getKey (process_with_regex s) "phone" =
      (phoneSearch s).map fun v => .str (String.mk v) := by
  simp [process_with_regex, getKey_optSetKey_ne, getKey_optSetKey_none,
    getKey_setKey_ne, getKey]

theorem plain_email_eq (s : List Char) :
    getKey (process_with_regex s) "email" =
      (search1 pEmail s).map fun v => .str (String.mk v) := by
  simp [process_with_regex, getKey_optSetKey_ne, getKey_optSetKey_none,
    getKey_setKey_ne, getKey]

theorem plain_address_eq (s : List Char) :
    getKey (process_with_regex s) "address" =
      (search1 pAddress s).map fun v => .str (String.mk (pyStrip v)) := by
  simp [process_with_regex, getKey_optSetKey_ne, getKey_optSetKey_none,
    getKey_setKey_ne, getKey]

theorem plain_error_eq (s : List Char) :
    getKey (process_with_regex s) "error" = none := by
  simp [process_with_regex, getKey_optSetKey_ne, getKey_setKey_ne, getKey]

theorem hybrid_inn_eq (s : List Char) :
    getKey (extract_with_regex s) "inn" =
      (search1 hInn s).map fun v => .str (String.mk v) := by
  simp [extract_with_regex, getKey_optSetKey_ne, getKey_optSetKey_none, getKey]

theorem hybrid_total_eq (s : List Char) :
    getKey (extract_with_regex s) "total" =
      (pickBest (hybridTotalCands s)).map fun pr => .str (String.mk pr.2) := by
  simp [extract_with_regex, getKey_optSetKey_ne, getKey_optSetKey_none, getKey]

theorem hybrid_phone_eq (s : List Char) :
    getKey (extract_with_regex s) "phone" =
      (search0 hPhone s).map fun v => .str (String.mk v) := by
  simp [extract_with_regex, getKey_optSetKey_ne, getKey_optSetKey_none, getKey]

theorem hybrid_vendor_eq (s : List Char) :
    getKey (extract_with_regex s) "vendor" =
      (hVendorLoop [hVendor] s).map fun v => .str (String.mk v) := by
  simp [extract_with_regex, getKey_optSetKey_ne, getKey_optSetKey_none, getKey]

theorem hybrid_invoice_eq (s : List Char) :
    getKey (extract_with_regex s) "invoice_number" = none := by
  simp [extract_with_regex, getKey_optSetKey_ne, getKey]

theorem hybrid_error_eq (s : List Char) :
    getKey (extract_with_regex s) "error" = none := by
  simp [extract_with_regex, getKey_optSetKey_ne, getKey]

theorem mlPredict_phone_eq (w : MLW) (s : List Char) :
    getKey (mlPredict w s) "phone" =
      (phoneSearch s).map fun v => .str (String.mk v) := by
  simp [mlPredict, mlFields, getKey_optSetKey_ne, getKey_optSetKey_none,
    getKey_setKey_ne, getKey]

/-! ## Helper lemmas for the claims -/

theorem hVendorLoop_single (re : RE) (s : List Char) :
    hVendorLoop [re] s =
      match search1 re s with
      | some m =>
          if 5 < (cleanVendorH m).length then some (cleanVendorH m) else none
      | none => none := by
  unfold hVendorLoop
  rcases h : search1 re s with _ | m <;> rfl

theorem PyF.lt_iff {x y : PyF} : PyF.lt x y = true ↔ x.toQ < y.toQ := by
  unfold PyF.lt PyF.toQ
  rw [decide_eq_true_eq, div_lt_div_iff₀ (by positivity) (by positivity)]
  constructor
  · intro h; exact_mod_cast h
  · intro h; exact_mod_cast h

theorem PyF.le_iff {x y : PyF} : PyF.le x y = true ↔ x.toQ ≤ y.toQ := by
  unfold PyF.le PyF.toQ
  rw [decide_eq_true_eq, div_le_div_iff₀ (by positivity) (by positivity)]
  constructor
  · intro h; exact_mod_cast h
  · intro h; exact_mod_cast h

theorem PyF.toQ_max (x y : PyF) : (PyF.max x y).toQ = x.toQ ⊔ y.toQ := by
  unfold PyF.max
  by_cases h : PyF.lt x y = true
  · rw [if_pos h]
    exact (max_eq_right (le_of_lt (PyF.lt_iff.1 h))).symm
  · rw [if_neg h]
    have : ¬ x.toQ < y.toQ := fun hq => h (PyF.lt_iff.2 hq)
    exact (max_eq_left (not_lt.1 this)).symm

theorem PyF.toQ_ofNat (n : Nat) : (PyF.ofNat n).toQ = (n : ℚ) := by
  simp [PyF.ofNat, PyF.toQ]

theorem foldl_pick_mem (r : List (PyF × List Char)) :
    ∀ a, r.foldl (fun acc z => if pairGt z acc then z else acc) a ∈ a :: r := by
  induction r with
  | nil => intro a; simp
  | cons b r ih =>
      intro a
      simp only [List.foldl]
      by_cases h : pairGt b a
      · rw [if_pos h]
        have := ih b
        simp only [List.mem_cons] at this ⊢
        tauto
      · rw [if_neg h]
        have := ih a
        simp only [List.mem_cons] at this ⊢
        tauto

theorem pickBest_mem {l : List (PyF × List Char)} {x : PyF × List Char}
    (h : pickBest l = some x) : x ∈ l := by
  cases l with
  | nil => simp [pickBest] at h
  | cons a r =>
      simp only [pickBest, Option.some.injEq] at h
      rw [← h]
      exact foldl_pick_mem r a

theorem hybridTotalCands_mem {s : List Char} {x : PyF × List Char}
    (h : x ∈ hybridTotalCands s) :
    pyFloat? x.2 = some x.1 ∧ (50 : ℚ) < x.1.toQ := by
  simp only [hybridTotalCands, List.mem_flatMap, List.mem_filterMap] at h
  obtain ⟨re, _, m, _, hx⟩ := h
  rcases hg : matchGroup s m 1 with _ | g
  · rw [hg] at hx; simp at hx
  · rw [hg] at hx
    dsimp only [Option.bind] at hx
    rcases hq : pyFloat? (removeSpaces (commaToDot g)) with _ | q
    · rw [hq] at hx; simp at hx
    · rw [hq] at hx
      dsimp only [Option.bind] at hx
      by_cases h50 : PyF.lt (PyF.ofNat 50) q = true
      · rw [if_pos h50] at hx
        injection hx with hx
        rw [← hx]
        have := PyF.lt_iff.1 h50
        rw [PyF.toQ_ofNat] at this
        exact ⟨hq, by exact_mod_cast this⟩
      · rw [if_neg h50] at hx; simp at hx

theorem foldl_pymax_ge {l : List PyF} : ∀ (x : PyF), x.toQ ≤ (l.foldl PyF.max x).toQ := by
  induction l with
  | nil => intro x; simp
  | cons a r ih =>
      intro x
      simp only [List.foldl]
      refine le_trans ?_ (ih (PyF.max x a))
      rw [PyF.toQ_max]
      exact le_max_left _ _

theorem foldl_pymax_ge_mem {l : List PyF} :
    ∀ (x v : PyF), v ∈ l → v.toQ ≤ (l.foldl PyF.max x).toQ := by
  induction l with
  | nil => intro x v hv; simp at hv
  | cons a r ih =>
      intro x v hv
      simp only [List.foldl]
      rcases List.mem_cons.1 hv with rfl | hv
      · refine le_trans ?_ (foldl_pymax_ge (PyF.max x v))
        rw [PyF.toQ_max]
        exact le_max_right _ _
      · exact ih (PyF.max x a) v hv

theorem pyMaxQ_ge {l : List PyF} {m : PyF} (h : pyMaxQ l = some m) :
    ∀ v ∈ l, v.toQ ≤ m.toQ := by
  cases l with
  | nil => simp [pyMaxQ] at h
  | cons x r =>
      simp only [pyMaxQ, Option.some.injEq] at h
      rw [← h]
      intro v hv
      rcases List.mem_cons.1 hv with rfl | hv
      · exact foldl_pymax_ge v
      · exact foldl_pymax_ge_mem x v hv

/-! ## Claims -/

/-- Claim C1, counterexample: on the empty text the hybrid extraction path
(`HybridBERTExtractor.extract_with_regex`) returns a record with none of the
four mandatory keys — they are absent, not bound to the sentinel. -/
theorem C1_counterexample :
    getKey (extract_with_regex "".data) "inn" = none ∧
    getKey (extract_with_regex "".data) "vendor" = none ∧
    getKey (extract_with_regex "".data) "date" = none ∧
    getKey (extract_with_regex "".data) "total" = none :=
  ⟨rfl, rfl, rfl, rfl⟩

/-- Claim C1 (amended): in the plain regex path (`process_with_regex`) the four
mandatory keys inn, vendor, date and total are always present, each bound to a
string (a value or the `UNRECOGNIZED` sentinel) — the total possibly to a
number; the hybrid path omits keys for fields it does not find. -/
theorem C1_mandatory_keys (s : List Char) :
    (∃ t, getKey (process_with_regex s) "inn" = some (.str t)) ∧
    (∃ t, getKey (process_with_regex s) "vendor" = some (.str t)) ∧
    (∃ t, getKey (process_with_regex s) "date" = some (.str t)) ∧
    (∃ v, getKey (process_with_regex s) "total" = some v ∧
      ((∃ q, v = .num q) ∨ (∃ t, v = .str t))) := by
  refine ⟨⟨_, plain_inn_eq s⟩, ⟨_, plain_vendor_eq s⟩, ⟨_, plain_date_eq s⟩, ?_⟩
  have h := plain_total_eq s
  rcases hg : firstSome1 [pTotal1, pTotal2] s with _ | g
  · rw [hg] at h
    exact ⟨_, h, Or.inr ⟨_, rfl⟩⟩
  · rw [hg] at h
    dsimp only at h
    rcases hq : pyFloat? (commaToDot (removeSpaces g)) with _ | q
    · rw [hq] at h
      exact ⟨_, h, Or.inr ⟨_, rfl⟩⟩
    · rw [hq] at h
      exact ⟨_, h, Or.inl ⟨q, rfl⟩⟩

/-- Claim C2: when neither the labelled total search nor the equals-sign search
matches and the maximum-wins fallback of `extract_data_from_text` produces the
total, the returned amount is at least 1.0 (the noise floor) and is greater
than or equal to every decimal-looking number the corpus-wide scan finds in
the text. -/
theorem C2_fallback_max (s : List Char) (q : PyF)
    (hlab : search1 aTotalLab s = none) (heq : search1 aEq s = none)
    (htot : getKey (extract_data_from_text s) "total" = some (.num q)) :
    (1 : ℚ) ≤ q.toQ ∧ ∀ v ∈ scanAmounts s, v.toQ ≤ q.toQ := by
  unfold extract_data_from_text at htot
  rw [hlab] at htot
  simp only [Option.orElse, heq] at htot
  rcases hmax : pyMaxQ (scanAmounts s) with _ | m
  · rw [hmax] at htot
    simp [getKey_optSetKey_ne, getKey] at htot
  · rw [hmax] at htot
    dsimp only at htot
    by_cases h1 : PyF.le (PyF.ofNat 1) m = true
    · rw [if_pos h1, getKey_setKey_self] at htot
      injection htot with htot
      injection htot with htot
      rw [← htot]
      have h1q := PyF.le_iff.1 h1
      rw [PyF.toQ_ofNat] at h1q
      exact ⟨by exact_mod_cast h1q, pyMaxQ_ge hmax⟩
    · rw [if_neg h1] at htot
      simp [getKey_optSetKey_ne, getKey] at htot

/-- Claim C2 witness: the spec scenario — a text with the two decimal numbers
150.00 and 1999.50 and no explicit total label; the fallback picks 1999.50. -/
theorem C2_witness :
    search1 aTotalLab ("150.00 1999.50").data = none ∧
    search1 aEq ("150.00 1999.50").data = none ∧
    getKey (extract_data_from_text ("150.00 1999.50").data) "total" =
      some (.num ⟨199950, 99⟩) ∧
    (⟨199950, 99⟩ : PyF).toQ = 3999 / 2 ∧
    ((1 : ℚ) ≤ (⟨199950, 99⟩ : PyF).toQ ∧
      ∀ v ∈ scanAmounts ("150.00 1999.50").data, v.toQ ≤ (⟨199950, 99⟩ : PyF).toQ) :=
  ⟨rfl, rfl, rfl, by norm_num [PyF.toQ], C2_fallback_max _ _ rfl rfl rfl⟩

/-- Claim C4, counterexample: on `"ИТОГО: 692.88"` the hybrid path stores the
total as the string `"692.88"` even though that cleaned string parses as a
number — contradicting "holds a numeric value whenever the cleaned matched
string parses as a number" for the hybrid extraction path. -/
theorem C4_counterexample :
    getKey (extract_with_regex ("ИТОГО: 692.88").data) "total" =
      some (.str "692.88") ∧
    pyFloat? ("692.88").data = some ⟨69288, 99⟩ ∧
    (⟨69288, 99⟩ : PyF).toQ = 17322 / 25 :=
  ⟨rfl, rfl, by norm_num [PyF.toQ]⟩

/-- Claim C4 (amended): the plain path stores the total as a float exactly when
the cleaned matched string parses, falling back to the cleaned string;
the hybrid path always stores the cleaned matched string (which, having passed
the numeric filter, is in fact always parseable). -/
theorem C4_total_typing (s : List Char) :
    (∀ g, firstSome1 [pTotal1, pTotal2] s = some g →
      getKey (process_with_regex s) "total" =
        some (match pyFloat? (commaToDot (removeSpaces g)) with
          | some q => .num q
          | none => .str (String.mk (commaToDot (removeSpaces g))))) ∧
    (∀ v, getKey (extract_with_regex s) "total" = some v →
      ∃ t q, v = .str t ∧ pyFloat? t.data = some q) := by
  constructor
  · intro g hg
    rw [plain_total_eq, hg]
  · intro v hv
    rw [hybrid_total_eq] at hv
    rcases hp : pickBest (hybridTotalCands s) with _ | pr
    · rw [hp] at hv; simp at hv
    · rw [hp] at hv
      dsimp only [Option.map] at hv
      injection hv with hv
      obtain ⟨hq, _⟩ := hybridTotalCands_mem (pickBest_mem hp)
      exact ⟨String.mk pr.2, pr.1, hv.symm, hq⟩

/-- Claim C4 witness: on `"ИТОГО: 692.88"` the plain path stores the float
692.88, and the hybrid path a parseable string. -/
theorem C4_witness :
    getKey (process_with_regex ("ИТОГО: 692.88").data) "total" =
      some (.num ⟨69288, 99⟩) ∧
    (∃ t q, Value.str "692.88" = .str t ∧ pyFloat? t.data = some q) := by
  constructor
  · have h := (C4_total_typing ("ИТОГО: 692.88").data).1 ("692.88").data rfl
    rw [h]; rfl
  · exact (C4_total_typing ("ИТОГО: 692.88").data).2 (.str "692.88") rfl

/-- Claim C5, counterexample: `invoice_number` is not an omitted-when-missing
optional field — on a text with no invoice number the plain path stores the
`UNRECOGNIZED` sentinel under the key instead of omitting it. -/
theorem C5_counterexample :
    getKey (process_with_regex "".data) "invoice_number" =
      some (.str "UNRECOGNIZED") :=
  rfl

/-- Claim C5 (amended): phone, email and address are omitted when unmatched;
`invoice_number` is always present in the plain path (bound to the sentinel
when unmatched) and is never produced by the hybrid path. -/
theorem C5_optional_fields (s : List Char) :
    (phoneSearch s = none → getKey (process_with_regex s) "phone" = none) ∧
    (search1 pEmail s = none → getKey (process_with_regex s) "email" = none) ∧
    (search1 pAddress s = none → getKey (process_with_regex s) "address" = none) ∧
    (∃ t, getKey (process_with_regex s) "invoice_number" = some (.str t)) ∧
    getKey (extract_with_regex s) "invoice_number" = none := by
  refine ⟨?_, ?_, ?_, ⟨_, plain_invoice_eq s⟩, hybrid_invoice_eq s⟩
  · intro h; rw [plain_phone_eq, h]; rfl
  · intro h; rw [plain_email_eq, h]; rfl
  · intro h; rw [plain_address_eq, h]; rfl

/-- Claim C5 witness: on the empty text no optional phone/email/address key is
present, while `invoice_number` is. -/
theorem C5_witness :
    phoneSearch "".data = none ∧
    getKey (process_with_regex "".data) "phone" = none ∧
    getKey (process_with_regex "".data) "email" = none ∧
    getKey (process_with_regex "".data) "address" = none :=
  ⟨rfl, (C5_optional_fields "".data).1 rfl, (C5_optional_fields "".data).2.1 rfl,
    (C5_optional_fields "".data).2.2.1 rfl⟩

/-- Claim C7: on empty or too-short (stripped length below 10) text, the
orchestrator returns the error record with exactly the keys `error` and
`details`; on non-degenerate text it returns the selected extractor's record
(with the diagnostic `ml_confidence` key removed), and neither extraction path
ever produces an `error` key itself. -/
theorem C7_error_record (f : List Char → Record) (s : List Char) :
    ((s = [] ∨ (pyStrip s).length < 10) →
      extract_invoice_data f s =
        [("error", .str "Не удалось извлечь текст из PDF"),
         ("details", .str "PDF может быть пустым или поврежденным")]) ∧
    (¬(s = [] ∨ (pyStrip s).length < 10) →
      extract_invoice_data f s = delKey "ml_confidence" (f s)) ∧
    getKey (process_with_regex s) "error" = none ∧
    getKey (extract_with_regex s) "error" = none := by
  refine ⟨?_, ?_, plain_error_eq s, hybrid_error_eq s⟩
  · intro h; simp [extract_invoice_data, h]
  · intro h; simp [extract_invoice_data, h]

/-- Claim C7 witness: the empty text yields the error record; a well-formed
receipt text does not. -/
theorem C7_witness :
    (("" : String).data = [] ∨ (pyStrip ("" : String).data).length < 10) ∧
    extract_invoice_data process_with_regex "".data =
      [("error", .str "Не удалось извлечь текст из PDF"),
       ("details", .str "PDF может быть пустым или поврежденным")] ∧
    ¬(("ИНН 2310031475").data = [] ∨ (pyStrip ("ИНН 2310031475").data).length < 10) ∧
    extract_invoice_data process_with_regex ("ИНН 2310031475").data =
      delKey "ml_confidence" (process_with_regex ("ИНН 2310031475").data) :=
  ⟨Or.inl rfl, (C7_error_record process_with_regex "".data).1 (Or.inl rfl),
    by decide, (C7_error_record process_with_regex ("ИНН 2310031475").data).2.1 (by decide)⟩

/-- Claim C10: in the hybrid path a vendor value is kept exactly when the
cleaned (stripped, quote-free) captured string is longer than 5 characters;
when the only organizational-prefix match cleans to 5 characters or fewer the
vendor key is absent. -/
theorem C10_vendor_length (s : List Char) :
    (∀ t, getKey (extract_with_regex s) "vendor" = some (.str t) →
      5 < t.length ∧ ∃ raw, search1 hVendor s = some raw ∧ t.data = cleanVendorH raw) ∧
    (∀ raw, search1 hVendor s = some raw → (cleanVendorH raw).length ≤ 5 →
      getKey (extract_with_regex s) "vendor" = none) := by
  constructor
  · intro t ht
    rw [hybrid_vendor_eq, hVendorLoop_single] at ht
    rcases hm : search1 hVendor s with _ | m
    · rw [hm] at ht; simp at ht
    · rw [hm] at ht
      by_cases hl : 5 < (cleanVendorH m).length
      · simp only [if_pos hl, Option.map_some] at ht
        injection ht with ht
        injection ht with ht
        refine ⟨?_, m, rfl, by rw [← ht]⟩
        have : t.length = (cleanVendorH m).length := by rw [← ht]; rfl
        omega
      · simp [if_neg hl] at ht
  · intro raw hm hle
    rw [hybrid_vendor_eq, hVendorLoop_single, hm]
    simp [Nat.not_lt.2 hle]

/-! ## Capture-shape lemmas (claims C3, C6) -/

/-- Any group-1 value of the plain inn pattern `ИНН[:\s]*(\d{10,12})` is a run
of 10 to 12 digits. -/
theorem pInn_shape {s v : List Char} (h : search1 pInn s = some v) :
    (∀ c ∈ v, c.isDigit) ∧ 10 ≤ v.length ∧ v.length ≤ 12 := by
  unfold search1 at h
  rcases hm : reSearch pInn s with _ | m
  · rw [hm] at h; simp at h
  · rw [hm] at h
    dsimp only [Option.bind] at h
    obtain ⟨st, en, cp⟩ := m
    have hmem := reSearch_spec hm
    unfold pInn rcat at hmem
    simp only [List.foldr] at hmem
    rw [mem_mrun_seq] at hmem
    obtain ⟨j1, hj1, hmem⟩ := hmem
    have hc1 : j1.2 = [] := mrun_caps_pres _ (by rfl) _ _ _ hj1
    rw [mem_mrun_seq] at hmem
    obtain ⟨j2, hj2, hmem⟩ := hmem
    have hc2 : j2.2 = j1.2 := mrun_caps_pres _ (by rfl) _ _ _ hj2
    rw [mem_mrun_seq] at hmem
    obtain ⟨j3, hj3, hmem⟩ := hmem
    rw [mem_mrun_eps] at hmem
    rw [Prod.mk.injEq] at hmem
    obtain ⟨_, hcp⟩ := hmem
    rw [mem_mrun_grp] at hj3
    obtain ⟨j4, hj4, hj3eq⟩ := hj3
    rw [mem_mrun_rep] at hj4
    simp only [rdigit] at hj4
    obtain ⟨hcp4, hlo, hhi, hchars⟩ := repRun_cls_spec _ _ _ _ _ _ hj4
    have hcap : cp = [(1, j2.1, j4.1)] := by
      rw [hcp, hj3eq]
      dsimp only
      rw [hcp4, hc2, hc1]
      rfl
    rw [hcap] at h
    unfold matchGroup at h
    rw [if_neg (by omega)] at h
    have hgc : getCap [(1, j2.1, j4.1)] 1 = some (j2.1, j4.1) := rfl
    rw [hgc] at h
    dsimp only [Option.map] at h
    injection h with h
    have hup := hhi 12 rfl (by omega)
    have hblen : j4.1 ≤ s.length := by
      by_contra hcon
      push_neg at hcon
      obtain ⟨c, hc, _⟩ := hchars (j4.1 - 1) (by omega) (by omega)
      rw [List.getElem?_eq_none (by omega)] at hc
      exact Option.noConfusion hc
    have hlen : v.length = j4.1 - j2.1 := by
      rw [← h]; exact length_slice hblen
    refine ⟨?_, by omega, by omega⟩
    intro c hc
    rw [← h] at hc
    obtain ⟨k, hk1, hk2, hks⟩ := mem_slice hc
    obtain ⟨c2, hc2q, hd⟩ := hchars k hk1 hk2
    rw [hks] at hc2q
    injection hc2q with hc2q
    rw [hc2q]
    exact hd

/-- Any group-1 value of the hybrid inn pattern `\bИНН[:\s]*(\d{10}|\d{12})\b`
is a run of exactly 10 or exactly 12 digits. -/
theorem hInn_shape {s v : List Char} (h : search1 hInn s = some v) :
    (∀ c ∈ v, c.isDigit) ∧ (v.length = 10 ∨ v.length = 12) := by
  unfold search1 at h
  rcases hm : reSearch hInn s with _ | m
  · rw [hm] at h; simp at h
  · rw [hm] at h
    dsimp only [Option.bind] at h
    obtain ⟨st, en, cp⟩ := m
    have hmem := reSearch_spec hm
    unfold hInn rcat at hmem
    simp only [List.foldr] at hmem
    rw [mem_mrun_seq] at hmem
    obtain ⟨j1, hj1, hmem⟩ := hmem
    have hc1 : j1.2 = [] := mrun_caps_pres _ (by rfl) _ _ _ hj1
    rw [mem_mrun_seq] at hmem
    obtain ⟨j2, hj2, hmem⟩ := hmem
    have hc2 : j2.2 = j1.2 := mrun_caps_pres _ (by rfl) _ _ _ hj2
    rw [mem_mrun_seq] at hmem
    obtain ⟨j3, hj3, hmem⟩ := hmem
    have hc3 : j3.2 = j2.2 := mrun_caps_pres _ (by rfl) _ _ _ hj3
    rw [mem_mrun_seq] at hmem
    obtain ⟨j4, hj4, hmem⟩ := hmem
    rw [mem_mrun_seq] at hmem
    obtain ⟨j5, hj5, hmem⟩ := hmem
    have hc5 : j5.2 = j4.2 := mrun_caps_pres _ (by rfl) _ _ _ hj5
    rw [mem_mrun_eps] at hmem
    rw [Prod.mk.injEq] at hmem
    obtain ⟨_, hcp⟩ := hmem
    rw [mem_mrun_grp] at hj4
    obtain ⟨j6, hj6, hj4eq⟩ := hj4
    rw [mem_mrun_alt] at hj6
    have hspec : j6.2 = j3.2 ∧ j3.1 ≤ j6.1 ∧
        (j6.1 - j3.1 = 10 ∨ j6.1 - j3.1 = 12) ∧
        (∀ k, j3.1 ≤ k → k < j6.1 → ∃ c, s[k]? = some c ∧ c.isDigit) := by
      rcases hj6 with hj6 | hj6
      · simp only [rexact, rdigit] at hj6
        rw [mem_mrun_rep] at hj6
        obtain ⟨ha, hb, hcb, hd⟩ := repRun_cls_spec _ _ _ _ _ _ hj6
        have := hcb 10 rfl (by omega)
        exact ⟨ha, by omega, by omega, hd⟩
      · simp only [rexact, rdigit] at hj6
        rw [mem_mrun_rep] at hj6
        obtain ⟨ha, hb, hcb, hd⟩ := repRun_cls_spec _ _ _ _ _ _ hj6
        have := hcb 12 rfl (by omega)
        exact ⟨ha, by omega, by omega, hd⟩
    obtain ⟨hcp6, hle, hlen1012, hchars⟩ := hspec
    have hcap : cp = [(1, j3.1, j6.1)] := by
      rw [hcp, hc5, hj4eq]
      dsimp only
      rw [hcp6, hc3, hc2, hc1]
      rfl
    rw [hcap] at h
    unfold matchGroup at h
    rw [if_neg (by omega)] at h
    have hgc : getCap [(1, j3.1, j6.1)] 1 = some (j3.1, j6.1) := rfl
    rw [hgc] at h
    dsimp only [Option.map] at h
    injection h with h
    have hblen : j6.1 ≤ s.length := by
      rcases Nat.eq_or_lt_of_le hle with heq | hlt
      · omega
      · by_contra hcon
        push_neg at hcon
        obtain ⟨c, hc, _⟩ := hchars (j6.1 - 1) (by omega) (by omega)
        rw [List.getElem?_eq_none (by omega)] at hc
        exact Option.noConfusion hc
    have hlenv : v.length = j6.1 - j3.1 := by
      rw [← h]; exact length_slice hblen
    refine ⟨?_, by omega⟩
    intro c hc
    rw [← h] at hc
    obtain ⟨k, hk1, hk2, hks⟩ := mem_slice hc
    obtain ⟨c2, hc2q, hd⟩ := hchars k hk1 hk2
    rw [hks] at hc2q
    injection hc2q with hc2q
    rw [hc2q]
    exact hd

/-- Claim C3, counterexample: the plain path's pattern `\d{10,12}` is greedy
and accepts an 11-digit run — `"ИНН 12345678901"` yields an 11-digit inn
value, contradicting "exactly 10 or exactly 12 digits (never 11) in every
extraction path". -/
theorem C3_counterexample :
    getKey (process_with_regex ("ИНН 12345678901").data) "inn" =
      some (.str "12345678901") ∧
    ("12345678901" : String).length = 11 :=
  ⟨rfl, rfl⟩

/-- Claim C3 (amended): any non-sentinel inn value is a digit string of 10 to
12 digits in the plain path (an 11-digit value is possible there), and of
exactly 10 or exactly 12 digits in the hybrid path. -/
theorem C3_inn_format (s : List Char) :
    (∀ t, getKey (process_with_regex s) "inn" = some (.str t) → t ≠ UNRECOGNIZED →
      (∀ c ∈ t.data, c.isDigit) ∧ 10 ≤ t.length ∧ t.length ≤ 12) ∧
    (∀ t, getKey (extract_with_regex s) "inn" = some (.str t) →
      (∀ c ∈ t.data, c.isDigit) ∧ (t.length = 10 ∨ t.length = 12)) := by
  constructor
  · intro t ht hne
    rw [plain_inn_eq] at ht
    rcases hv : search1 pInn s with _ | v
    · rw [hv] at ht
      dsimp only at ht
      injection ht with ht
      injection ht with ht
      exact absurd ht.symm hne
    · rw [hv] at ht
      dsimp only at ht
      injection ht with ht
      injection ht with ht
      obtain ⟨hdig, hlo, hhi⟩ := pInn_shape hv
      rw [← ht]
      exact ⟨hdig, hlo, hhi⟩
  · intro t ht
    rw [hybrid_inn_eq] at ht
    rcases hv : search1 hInn s with _ | v
    · rw [hv] at ht; simp at ht
    · rw [hv] at ht
      dsimp only [Option.map] at ht
      injection ht with ht
      injection ht with ht
      obtain ⟨hdig, hlen⟩ := hInn_shape hv
      rw [← ht]
      exact ⟨hdig, hlen⟩

/-- Claim C3 witness: a 10-digit inn is accepted in both paths with the
asserted format. -/
theorem C3_witness :
    getKey (process_with_regex ("ИНН 2310031475").data) "inn" =
      some (.str "2310031475") ∧
    ((∀ c ∈ ("2310031475" : String).data, c.isDigit) ∧
      10 ≤ ("2310031475" : String).length ∧ ("2310031475" : String).length ≤ 12) ∧
    getKey (extract_with_regex ("ИНН 2310031475").data) "inn" =
      some (.str "2310031475") ∧
    ((∀ c ∈ ("2310031475" : String).data, c.isDigit) ∧
      (("2310031475" : String).length = 10 ∨ ("2310031475" : String).length = 12)) :=
  ⟨rfl, (C3_inn_format ("ИНН 2310031475").data).1 _ rfl (by decide), rfl,
    (C3_inn_format ("ИНН 2310031475").data).2 _ rfl⟩

/-- The value assembled by the phone section — `f"+7{g1}{g2}{g3}{g4}"` over the
four all-digit groups of sizes 3, 3, 2, 2 — is `+7` followed by exactly 10
digits. -/
theorem phoneSearch_shape {s v : List Char} (h : phoneSearch s = some v) :
    v.length = 12 ∧ v.take 2 = ['+', '7'] ∧ ∀ c ∈ v.drop 2, c.isDigit := by
  unfold phoneSearch at h
  rcases hm : reSearch pPhone s with _ | m
  · rw [hm] at h; simp at h
  · rw [hm] at h
    obtain ⟨st, en, cp⟩ := m
    dsimp only at h
    have hmem := reSearch_spec hm
    unfold pPhone rcat at hmem
    simp only [List.foldr] at hmem
    rw [mem_mrun_seq] at hmem
    obtain ⟨j1, hj1, hmem⟩ := hmem
    have hc1 : j1.2 = [] := mrun_caps_pres _ (by rfl) _ _ _ hj1
    rw [mem_mrun_seq] at hmem
    obtain ⟨j2, hj2, hmem⟩ := hmem
    have hc2 : j2.2 = j1.2 := mrun_caps_pres _ (by rfl) _ _ _ hj2
    rw [mem_mrun_seq] at hmem
    obtain ⟨j3, hj3, hmem⟩ := hmem
    have hc3 : j3.2 = j2.2 := mrun_caps_pres _ (by rfl) _ _ _ hj3
    rw [mem_mrun_seq] at hmem
    obtain ⟨j4, hj4, hmem⟩ := hmem
    have hc4 : j4.2 = j3.2 := mrun_caps_pres _ (by rfl) _ _ _ hj4
    rw [mem_mrun_seq] at hmem
    obtain ⟨j5, hj5, hmem⟩ := hmem
    rw [mem_mrun_seq] at hmem
    obtain ⟨j6, hj6, hmem⟩ := hmem
    have hc6 : j6.2 = j5.2 := mrun_caps_pres _ (by rfl) _ _ _ hj6
    rw [mem_mrun_seq] at hmem
    obtain ⟨j7, hj7, hmem⟩ := hmem
    have hc7 : j7.2 = j6.2 := mrun_caps_pres _ (by rfl) _ _ _ hj7
    rw [mem_mrun_seq] at hmem
    obtain ⟨j8, hj8, hmem⟩ := hmem
    rw [mem_mrun_seq] at hmem
    obtain ⟨j9, hj9, hmem⟩ := hmem
    have hc9 : j9.2 = j8.2 := mrun_caps_pres _ (by rfl) _ _ _ hj9
    rw [mem_mrun_seq] at hmem
    obtain ⟨j10, hj10, hmem⟩ := hmem
    rw [mem_mrun_seq] at hmem
    obtain ⟨j11, hj11, hmem⟩ := hmem
    have hc11 : j11.2 = j10.2 := mrun_caps_pres _ (by rfl) _ _ _ hj11
    rw [mem_mrun_seq] at hmem
    obtain ⟨j12, hj12, hmem⟩ := hmem
    rw [mem_mrun_eps] at hmem
    rw [Prod.mk.injEq] at hmem
    obtain ⟨_, hcp⟩ := hmem
    rw [mem_mrun_grp] at hj5
    obtain ⟨g1, hg1, hj5eq⟩ := hj5
    simp only [rexact, rdigit] at hg1
    rw [mem_mrun_rep] at hg1
    obtain ⟨he1, hlo1, hhi1, hch1⟩ := repRun_cls_spec _ _ _ _ _ _ hg1
    rw [mem_mrun_grp] at hj8
    obtain ⟨g2, hg2, hj8eq⟩ := hj8
    simp only [rexact, rdigit] at hg2
    rw [mem_mrun_rep] at hg2
    obtain ⟨he2, hlo2, hhi2, hch2⟩ := repRun_cls_spec _ _ _ _ _ _ hg2
    rw [mem_mrun_grp] at hj10
    obtain ⟨g3, hg3, hj10eq⟩ := hj10
    simp only [rexact, rdigit] at hg3
    rw [mem_mrun_rep] at hg3
    obtain ⟨he3, hlo3, hhi3, hch3⟩ := repRun_cls_spec _ _ _ _ _ _ hg3
    rw [mem_mrun_grp] at hj12
    obtain ⟨g4, hg4, hj12eq⟩ := hj12
    simp only [rexact, rdigit] at hg4
    rw [mem_mrun_rep] at hg4
    obtain ⟨he4, hlo4, hhi4, hch4⟩ := repRun_cls_spec _ _ _ _ _ _ hg4
    have hcap : cp =
        [(1, j4.1, g1.1), (2, j7.1, g2.1), (3, j9.1, g3.1), (4, j11.1, g4.1)] := by
      rw [hcp, hj12eq]
      dsimp only
      rw [he4, hc11, hj10eq]
      dsimp only
      rw [he3, hc9, hj8eq]
      dsimp only
      rw [he2, hc7, hc6, hj5eq]
      dsimp only
      rw [he1, hc4, hc3, hc2, hc1]
      rfl
    rw [hcap] at h
    simp only [matchGroup] at h
    have e1 : getCap
        [(1, j4.1, g1.1), (2, j7.1, g2.1), (3, j9.1, g3.1), (4, j11.1, g4.1)] 1 =
        some (j4.1, g1.1) := rfl
    have e2 : getCap
        [(1, j4.1, g1.1), (2, j7.1, g2.1), (3, j9.1, g3.1), (4, j11.1, g4.1)] 2 =
        some (j7.1, g2.1) := rfl
    have e3 : getCap
        [(1, j4.1, g1.1), (2, j7.1, g2.1), (3, j9.1, g3.1), (4, j11.1, g4.1)] 3 =
        some (j9.1, g3.1) := rfl
    have e4 : getCap
        [(1, j4.1, g1.1), (2, j7.1, g2.1), (3, j9.1, g3.1), (4, j11.1, g4.1)] 4 =
        some (j11.1, g4.1) := rfl
    rw [e1, e2, e3, e4] at h
    dsimp only [Option.map] at h
    injection h with h
    have hb1 : g1.1 ≤ s.length := by
      by_contra hcon
      push_neg at hcon
      obtain ⟨c, hc, _⟩ := hch1 (g1.1 - 1) (by omega) (by omega)
      rw [List.getElem?_eq_none (by omega)] at hc
      exact Option.noConfusion hc
    have hb2 : g2.1 ≤ s.length := by
      by_contra hcon
      push_neg at hcon
      obtain ⟨c, hc, _⟩ := hch2 (g2.1 - 1) (by omega) (by omega)
      rw [List.getElem?_eq_none (by omega)] at hc
      exact Option.noConfusion hc
    have hb3 : g3.1 ≤ s.length := by
      by_contra hcon
      push_neg at hcon
      obtain ⟨c, hc, _⟩ := hch3 (g3.1 - 1) (by omega) (by omega)
      rw [List.getElem?_eq_none (by omega)] at hc
      exact Option.noConfusion hc
    have hb4 : g4.1 ≤ s.length := by
      by_contra hcon
      push_neg at hcon
      obtain ⟨c, hc, _⟩ := hch4 (g4.1 - 1) (by omega) (by omega)
      rw [List.getElem?_eq_none (by omega)] at hc
      exact Option.noConfusion hc
    have hu1 := hhi1 3 rfl (by omega)
    have hu2 := hhi2 3 rfl (by omega)
    have hu3 := hhi3 2 rfl (by omega)
    have hu4 := hhi4 2 rfl (by omega)
    have hl1 : (slice s j4.1 g1.1).length = 3 := by rw [length_slice hb1]; omega
    have hl2 : (slice s j7.1 g2.1).length = 3 := by rw [length_slice hb2]; omega
    have hl3 : (slice s j9.1 g3.1).length = 2 := by rw [length_slice hb3]; omega
    have hl4 : (slice s j11.1 g4.1).length = 2 := by rw [length_slice hb4]; omega
    refine ⟨?_, ?_, ?_⟩
    · rw [← h]
      simp [hl1, hl2, hl3, hl4]
    · rw [← h]
      rfl
    · intro c hc
      rw [← h] at hc
      have hc2d : c ∈ slice s j4.1 g1.1 ++ slice s j7.1 g2.1 ++
          slice s j9.1 g3.1 ++ slice s j11.1 g4.1 := by
        simpa using hc
      have hdig : ∀ (a b : Nat)
          (hch : ∀ k, a ≤ k → k < b → ∃ c0, s[k]? = some c0 ∧ c0.isDigit),
          c ∈ slice s a b → c.isDigit := by
        intro a b hch hcm
        obtain ⟨k, hk1, hk2, hks⟩ := mem_slice hcm
        obtain ⟨c0, hc0, hd⟩ := hch k hk1 hk2
        rw [hks] at hc0
        injection hc0 with hc0
        rw [hc0]
        exact hd
      rcases List.mem_append.1 hc2d with hcc | hcc
      · rcases List.mem_append.1 hcc with hcc | hcc
        · rcases List.mem_append.1 hcc with hcc | hcc
          · exact hdig _ _ hch1 hcc
          · exact hdig _ _ hch2 hcc
        · exact hdig _ _ hch3 hcc
      · exact hdig _ _ hch4 hcc

/-- The normalized phone shape: `+7` followed by exactly 10 ASCII digits (and
hence no spaces, hyphens or parentheses). -/
def isPhoneNorm (t : String) : Prop :=
  t.length = 12 ∧ t.data.take 2 = ['+', '7'] ∧ ∀ c ∈ t.data.drop 2, c.isDigit

/-- Claim C6, counterexample: the hybrid path stores the raw matched phone
string unnormalized — `"84951234567"` is kept verbatim, which is not of the
`+7` + 10 digits form. -/
theorem C6_counterexample :
    getKey (extract_with_regex ("84951234567").data) "phone" =
      some (.str "84951234567") ∧
    ¬isPhoneNorm "84951234567" :=
  ⟨rfl, by unfold isPhoneNorm; decide⟩

/-- Claim C6 (amended): the plain regex path and the trainable-model path
normalize any phone value to `+7` followed by exactly 10 ASCII digits; the
hybrid path stores the raw match instead. -/
theorem C6_phone_normalized (s : List Char) (w : MLW) :
    (∀ t, getKey (process_with_regex s) "phone" = some (.str t) → isPhoneNorm t) ∧
    (∀ t, getKey (mlPredict w s) "phone" = some (.str t) → isPhoneNorm t) := by
  have hshape : ∀ t, (phoneSearch s).map (fun v => Value.str (String.mk v)) =
      some (.str t) → isPhoneNorm t := by
    intro t ht
    rcases hv : phoneSearch s with _ | v
    · rw [hv] at ht; simp at ht
    · rw [hv] at ht
      dsimp only [Option.map] at ht
      injection ht with ht
      injection ht with ht
      obtain ⟨hlen, htake, hdig⟩ := phoneSearch_shape hv
      rw [← ht]
      exact ⟨hlen, htake, hdig⟩
  constructor
  · intro t ht
    rw [plain_phone_eq] at ht
    exact hshape t ht
  · intro t ht
    rw [mlPredict_phone_eq] at ht
    exact hshape t ht

/-- Claim C6 witness: both normalizing paths turn `"84951234567"` into
`"+74951234567"`, which has the asserted shape. -/
theorem C6_witness :
    getKey (process_with_regex ("84951234567").data) "phone" =
      some (.str "+74951234567") ∧
    getKey (mlPredict mlInit ("84951234567").data) "phone" =
      some (.str "+74951234567") ∧
    isPhoneNorm "+74951234567" :=
  ⟨rfl, rfl, (C6_phone_normalized ("84951234567").data mlInit).1 _ rfl⟩

/-! ## Trainer lemmas (claims C8, C9) -/

theorem pyf_den_cast (x y : PyF) :
    (((x.den1 + 1) * (y.den1 + 1) - 1 : Nat) : ℚ) + 1
      = ((x.den1 : ℚ) + 1) * ((y.den1 : ℚ) + 1) := by
  have h1 : 1 ≤ (x.den1 + 1) * (y.den1 + 1) := Nat.one_le_iff_ne_zero.2 (by positivity)
  push_cast [Nat.cast_sub h1]
  ring

theorem PyF.toQ_add (x y : PyF) : (x.add y).toQ = x.toQ + y.toQ := by
  unfold PyF.add PyF.toQ
  dsimp only
  rw [pyf_den_cast]
  have hx : ((x.den1 : ℚ) + 1) ≠ 0 := by positivity
  have hy : ((y.den1 : ℚ) + 1) ≠ 0 := by positivity
  push_cast
  field_simp
  try ring

theorem PyF.toQ_sub (x y : PyF) : (x.sub y).toQ = x.toQ - y.toQ := by
  unfold PyF.sub PyF.toQ
  dsimp only
  rw [pyf_den_cast]
  have hx : ((x.den1 : ℚ) + 1) ≠ 0 := by positivity
  have hy : ((y.den1 : ℚ) + 1) ≠ 0 := by positivity
  push_cast
  field_simp
  try ring

theorem update_one_floor {w : PyF} (reward : Bool) (h : (1 : ℚ) / 10 ≤ w.toQ) :
    (1 : ℚ) / 10 ≤ (update_one reward w).toQ := by
  unfold update_one
  cases reward with
  | true =>
      rw [if_pos (by trivial)]
      rw [PyF.toQ_add]
      have hp : (0 : ℚ) ≤ (⟨1, 99⟩ : PyF).toQ := by norm_num [PyF.toQ]
      linarith
  | false =>
      rw [if_neg (by simp)]
      rw [PyF.toQ_max]
      have hfl : (⟨1, 9⟩ : PyF).toQ = 1 / 10 := by norm_num [PyF.toQ]
      rw [hfl]
      exact le_max_left _ _

/-- All weights of a list are at or above the 0.1 floor. -/
def allGE (l : List PyF) : Prop := ∀ x ∈ l, (1 : ℚ) / 10 ≤ x.toQ

/-- All four weight lists of a state are at or above the 0.1 floor. -/
def MLW.floor (w : MLW) : Prop :=
  allGE w.inn ∧ allGE w.vendor ∧ allGE w.date ∧ allGE w.total

theorem zipWith_mem_inv {α β γ : Type} {f : α → β → γ} :
    ∀ {as : List α} {bs : List β} {c : γ}, c ∈ List.zipWith f as bs →
      ∃ a b, b ∈ bs ∧ c = f a b := by
  intro as
  induction as with
  | nil => intro bs c h; simp at h
  | cons a as ih =>
      intro bs c h
      cases bs with
      | nil => simp at h
      | cons b bs =>
          rcases List.mem_cons.1 h with rfl | h
          · exact ⟨a, b, List.mem_cons_self _ _, rfl⟩
          · obtain ⟨a1, b1, hb, hc⟩ := ih h
            exact ⟨a1, b1, List.mem_cons_of_mem _ hb, hc⟩

theorem allGE_zipWith {s : List Char} {predicted : String} {reward : Bool}
    {ps : List RE} {ws : List PyF} (h : allGE ws) :
    allGE (List.zipWith
      (fun re wi =>
        if predicted ∈ (extract_with_pattern s re).map String.mk then
          update_one reward wi
        else wi) ps ws) := by
  intro x hx
  obtain ⟨re, wi, hwi, rfl⟩ := zipWith_mem_inv hx
  by_cases hc : predicted ∈ (extract_with_pattern s re).map String.mk
  · rw [if_pos hc]; exact update_one_floor _ (h wi hwi)
  · rw [if_neg hc]; exact h wi hwi

theorem update_weights_floor (w : MLW) (s : List Char) (field predicted : String)
    (reward : Bool) (h : w.floor) :
    (update_weights w s field predicted reward).floor := by
  obtain ⟨h1, h2, h3, h4⟩ := h
  unfold update_weights
  by_cases hf : field ∈ mlFields
  · rw [if_pos hf]
    simp only [mlFields, List.mem_cons, List.not_mem_nil, or_false] at hf
    rcases hf with rfl | rfl | rfl | rfl
    · exact ⟨allGE_zipWith h1, h2, h3, h4⟩
    · exact ⟨h1, allGE_zipWith h2, h3, h4⟩
    · exact ⟨h1, h2, allGE_zipWith h3, h4⟩
    · exact ⟨h1, h2, h3, allGE_zipWith h4⟩
  · rw [if_neg hf]; exact ⟨h1, h2, h3, h4⟩

theorem foldl_floor_any {α : Type} (g : MLW → α → MLW)
    (hg : ∀ w a, w.floor → (g w a).floor) :
    ∀ (l : List α) (w : MLW), w.floor → (l.foldl g w).floor := by
  intro l
  induction l with
  | nil => intro w h; exact h
  | cons a l ih => intro w h; exact ih (g w a) (hg w a h)

theorem trainExample_floor (w : MLW) (ex : List Char × List (String × String))
    (h : w.floor) : (trainExample w ex).floor := by
  unfold trainExample
  refine foldl_floor_any _ ?_ mlFields w h
  intro w0 f h0
  dsimp only
  rcases ex.2.lookup f with _ | actual
  · exact h0
  · exact update_weights_floor _ _ _ _ _ h0

theorem trainEpoch_floor (w : MLW) (data : List (List Char × List (String × String)))
    (h : w.floor) : (trainEpoch w data).floor :=
  foldl_floor_any trainExample (fun w0 ex h0 => trainExample_floor w0 ex h0) data w h

theorem mlInit_floor : mlInit.floor := by
  refine ⟨?_, ?_, ?_, ?_⟩ <;>
    · intro x hx
      rw [List.eq_of_mem_replicate hx]
      norm_num [PyF.toQ, PyF.ofNat]

/-- Claim C8: after any number of training epochs on any labelled data, every
pattern weight of the trainer remains at or above the 0.1 floor (weights start
at 1.0; increases cannot drop a weight and decreases are clamped at 0.1). -/
theorem C8_weight_floor (data : List (List Char × List (String × String)))
    (epochs : Nat) :
    (∀ x ∈ (train data epochs).inn, (1 : ℚ) / 10 ≤ x.toQ) ∧
    (∀ x ∈ (train data epochs).vendor, (1 : ℚ) / 10 ≤ x.toQ) ∧
    (∀ x ∈ (train data epochs).date, (1 : ℚ) / 10 ≤ x.toQ) ∧
    (∀ x ∈ (train data epochs).total, (1 : ℚ) / 10 ≤ x.toQ) := by
  have : (train data epochs).floor := by
    unfold train
    exact foldl_floor_any _ (fun w0 e h0 => trainEpoch_floor w0 data h0)
      (List.range epochs) mlInit mlInit_floor
  exact this

/-- Claim C8 witness: a concrete training run (empty data, one epoch) with a
concrete member weight, at or above the floor. -/
theorem C8_witness :
    PyF.ofNat 1 ∈ (train [] 1).inn ∧ (1 : ℚ) / 10 ≤ (PyF.ofNat 1).toQ :=
  ⟨by decide, (C8_weight_floor [] 1).1 (PyF.ofNat 1) (by decide)⟩

theorem zipWith_getElem? {α β γ : Type} {f : α → β → γ} :
    ∀ (as : List α) (bs : List β) (i : Nat),
      (List.zipWith f as bs)[i]? =
        match as[i]?, bs[i]? with
        | some a, some b => some (f a b)
        | _, _ => none := by
  intro as
  induction as with
  | nil => intro bs i; cases bs <;> cases i <;> simp
  | cons a as ih =>
      intro bs i
      cases bs with
      | nil => cases i <;> simp
      | cons b bs =>
          cases i with
          | zero => simp
          | succ i => simpa using ih bs i

theorem MLW.get_set_self (w : MLW) (field : String) (l : List PyF)
    (hf : field ∈ mlFields) : (w.set field l).get field = l := by
  simp only [mlFields, List.mem_cons, List.not_mem_nil, or_false] at hf
  rcases hf with rfl | rfl | rfl | rfl <;> simp [MLW.set, MLW.get]

/-- Claim C9, counterexample: training one epoch on the single example
`("ИНН: 1234567890", {inn: "1234567890"})` — the prediction (produced by rule
0) matches the ground truth, yet all three inn rule weights rise to 1.01, not
only the producing rule's; "of exactly the rule that produced the winning
candidate (and of no other rule)" is false. -/
theorem C9_counterexample :
    (train [(("ИНН: 1234567890").data, [("inn", "1234567890")])] 1).inn
      = [⟨101, 99⟩, ⟨101, 99⟩, ⟨101, 99⟩] ∧
    mlInit.inn = [⟨1, 0⟩, ⟨1, 0⟩, ⟨1, 0⟩] ∧
    (⟨101, 99⟩ : PyF).toQ ≠ (⟨1, 0⟩ : PyF).toQ :=
  ⟨rfl, rfl, by norm_num [PyF.toQ]⟩

/-- Claim C9 (amended): on a lenient-equality match the trainer increases by
one learning-rate step the weight of every rule whose matches on the text
contain the predicted value (which includes, but is not limited to, the rule
that produced the winner); on a mismatch it decreases every such weight,
clamped at the 0.1 floor. -/
theorem C9_update_rule (w : MLW) (s : List Char) (field predicted : String)
    (reward : Bool) (i : Nat) (hf : field ∈ mlFields)
    (hlen : (w.get field).length = (mlPatterns field).length) :
    ((update_weights w s field predicted reward).get field)[i]? =
      ((w.get field)[i]?).map fun wi =>
        match (mlPatterns field)[i]? with
        | some re =>
            if predicted ∈ (extract_with_pattern s re).map String.mk then
              update_one reward wi
            else wi
        | none => wi := by
  unfold update_weights
  rw [if_pos hf, MLW.get_set_self _ _ _ hf, zipWith_getElem?]
  rcases hp : (mlPatterns field)[i]? with _ | re
  · have hlen2 : (mlPatterns field).length ≤ i := List.getElem?_eq_none_iff.1 hp
    have hw : (w.get field)[i]? = none := List.getElem?_eq_none (by omega)
    rw [hw]
    rfl
  · have hi : i < (mlPatterns field).length := by
      by_contra hcon
      rw [List.getElem?_eq_none (by omega)] at hp
      exact Option.noConfusion hp
    have hi2 : i < (w.get field).length := by omega
    obtain ⟨wi, hw⟩ : ∃ wi, (w.get field)[i]? = some wi :=
      ⟨(w.get field)[i], List.getElem?_eq_getElem hi2⟩
    rw [hw]
    rfl

/-- Claim C9 witness: the concrete update of the counterexample, read through
the amended rule at index 1 (a rule that did not produce the winner but whose
matches contain the predicted value). -/
theorem C9_witness :
    ((update_weights mlInit ("ИНН: 1234567890").data "inn" "1234567890" true).get
        "inn")[1]? =
      ((mlInit.get "inn")[1]?).map (fun wi =>
        match (mlPatterns "inn")[1]? with
        | some re =>
            if "1234567890" ∈
                (extract_with_pattern ("ИНН: 1234567890").data re).map String.mk then
              update_one true wi
            else wi
        | none => wi) ∧
    ((update_weights mlInit ("ИНН: 1234567890").data "inn" "1234567890" true).get
        "inn")[1]? = some ⟨101, 99⟩ :=
  ⟨C9_update_rule mlInit ("ИНН: 1234567890").data "inn" "1234567890" true 1
    (by decide) (by decide), rfl⟩

/-- Claim C10 witness: `"ООО Ромашка"` (cleans to 11 characters) is kept;
`"АО а  "` (cleans to 4 characters) is dropped and the vendor key is absent. -/
theorem C10_witness :
    getKey (extract_with_regex ("ООО Ромашка").data) "vendor" =
      some (.str "ООО Ромашка") ∧
    5 < ("ООО Ромашка" : String).length ∧
    search1 hVendor ("АО а  ").data = some ("АО а  ").data ∧
    (cleanVendorH ("АО а  ").data).length ≤ 5 ∧
    getKey (extract_with_regex ("АО а  ").data) "vendor" = none :=
  ⟨rfl, ((C10_vendor_length ("ООО Ромашка").data).1 _ rfl).1, rfl, by decide,
    (C10_vendor_length ("АО а  ").data).2 _ rfl (by decide)⟩

end Hakaton
